import Mathlib

/-!
# ScriptorAI local pipeline: verified shallow embedding

This file embeds the core of the ScriptorAI local document pipeline
(`scriptor_local/models/database.py`, `scriptor_local/services/batch_processor.py`,
`scriptor_local/services/embeddings.py`) into Lean 4 and proves the specified
properties of the job queue, the batch orchestrator, the embedding stage and the
brute-force search engine.

Modelling conventions:
* SQLite rows are Lean structures; a table is the list of its rows in insertion
  (rowid) order.
* SQLite storage is dynamically typed, so the columns that are written through
  the generic `update_*` helpers hold a `Value` (text / integer / timestamp /
  NULL).  ISO-8601 timestamp strings compare lexicographically exactly in
  chronological order, so timestamps are modelled as naturals.
* `ORDER BY` is modelled with `List.mergeSort` over the comparison key.
* Python dictionaries (used by the search engine) are association lists that
  keep insertion order; float scores are modelled as rationals.
* `numpy.float32` values are represented by their 32-bit patterns (naturals
  below 2^32); `tobytes` / `frombuffer` become the little-endian byte codec.
-/

namespace Scriptor

/-- A dynamically-typed SQLite cell: TEXT, INTEGER, an ISO timestamp, or NULL. -/
inductive Value where
  | str (s : String)
  | int (n : Int)
  | time (t : Nat)
  | null
deriving DecidableEq

/-- A row of the `jobs` table (schema in `database.py`).  The columns that
`add_job` fixes at insertion keep their concrete types; the columns that
`update_job` may rewrite hold a dynamic `Value`. -/
structure Job where
  id : String
  paper_id : String
  type : String
  status : Value
  priority : Int
  error : Value
  created_at : Nat
  started_at : Value
  finished_at : Value
deriving DecidableEq

/-- A row of the `papers` table. -/
structure Paper where
  id : String
  title : Value
  authors : Value
  year : Value
  doi : Value
  source_url : Value
  local_pdf_path : String
  added_at : Nat
  indexed_at : Value
  embeddings_ready : Value
  status : Value
  collection : Value
  metadata : Value
deriving DecidableEq

/-- A row of the `chunks` table. -/
structure Chunk where
  id : String
  paper_id : String
  page : Int
  bbox : String
  text : String
  chunk_index : Int
deriving DecidableEq

/-- The persistent store: the four tables of `database.py` that the pipeline
core touches.  `embeddings` is keyed by chunk id and holds the raw vector
bytes. -/
structure Database where
  papers : List Paper
  jobs : List Job
  chunks : List Chunk
  embeddings : List (String × List Nat)
deriving DecidableEq

/-- `WHERE status = 'pending'` (SQLite TEXT comparison). -/
def isPendingJob (j : Job) : Bool := j.status == Value.str "pending"

/-- The comparison key of `ORDER BY priority DESC, created_at ASC`. -/
def jobOrder (a b : Job) : Bool :=
  decide (b.priority < a.priority) ||
    (a.priority == b.priority && decide (a.created_at ≤ b.created_at))

/-- `Database.get_pending_jobs`:
`SELECT * FROM jobs WHERE status = 'pending' ORDER BY priority DESC, created_at ASC`. -/
def Database.get_pending_jobs (db : Database) : List Job :=
  (db.jobs.filter isPendingJob).mergeSort jobOrder

theorem jobOrder_total (a b : Job) : jobOrder a b || jobOrder b a := by
  simp only [jobOrder, Bool.or_eq_true, decide_eq_true_eq, Bool.and_eq_true, beq_iff_eq]
  omega

theorem jobOrder_trans (a b c : Job) (hab : jobOrder a b) (hbc : jobOrder b c) :
    jobOrder a c := by
  simp only [jobOrder, Bool.or_eq_true, decide_eq_true_eq, Bool.and_eq_true, beq_iff_eq] at *
  omega

/-- On a list whose creation timestamps strictly increase, pairs of rows never
share a timestamp. -/
theorem pairwise_ne_created_of_mono {l : List Job}
    (hmono : l.Pairwise (fun a b => a.created_at < b.created_at)) :
    l.Pairwise (fun a b => a.created_at ≠ b.created_at) :=
  hmono.imp (fun h => Nat.ne_of_lt h)

/-- **C1.** `get_pending_jobs` returns exactly the rows whose status is
`pending` (a permutation of the filtered table), its output is sorted by
priority descending with ties in priority ordered by creation time ascending,
and — provided the creation timestamps follow insertion order, as `add_job`
guarantees — the rows of any single priority appear exactly in insertion
order. -/
theorem get_pending_jobs_spec (db : Database)
    (hmono : db.jobs.Pairwise (fun a b => a.created_at < b.created_at)) :
    db.get_pending_jobs.Perm (db.jobs.filter isPendingJob) ∧
    db.get_pending_jobs.Pairwise
      (fun a b => b.priority < a.priority ∨
        (a.priority = b.priority ∧ a.created_at ≤ b.created_at)) ∧
    ∀ p : Int, db.get_pending_jobs.filter (fun j => j.priority == p)
             = (db.jobs.filter isPendingJob).filter (fun j => j.priority == p) := by
  have hperm : db.get_pending_jobs.Perm (db.jobs.filter isPendingJob) :=
    List.mergeSort_perm _ _
  have hsorted : db.get_pending_jobs.Pairwise (fun a b => jobOrder a b = true) :=
    List.sorted_mergeSort jobOrder_trans jobOrder_total _
  refine ⟨hperm, ?_, ?_⟩
  · exact hsorted.imp (fun h => by
      simpa only [jobOrder, Bool.or_eq_true, decide_eq_true_eq, Bool.and_eq_true,
        beq_iff_eq] using h)
  · intro p
    -- both sides are sorted strictly by creation time and are permutations of
    -- each other, hence equal
    have hnefull : db.get_pending_jobs.Pairwise (fun a b => a.created_at ≠ b.created_at) := by
      have h1 : (db.jobs.filter isPendingJob).Pairwise
          (fun a b => a.created_at ≠ b.created_at) :=
        (pairwise_ne_created_of_mono hmono).filter _
      exact (hperm.pairwise_iff (fun h => Ne.symm h)).2 h1
    have hL : (db.get_pending_jobs.filter (fun j => j.priority == p)).Pairwise
        (fun a b => a.created_at < b.created_at) := by
      have hs : (db.get_pending_jobs.filter (fun j => j.priority == p)).Pairwise
          (fun a b => jobOrder a b = true ∧ a.created_at ≠ b.created_at) :=
        (hsorted.and hnefull).filter _
      refine hs.imp_of_mem ?_
      intro a b ha hb hab
      have hpa : a.priority = p := by
        have := (List.mem_filter.1 ha).2
        simpa [beq_iff_eq] using this
      have hpb : b.priority = p := by
        have := (List.mem_filter.1 hb).2
        simpa [beq_iff_eq] using this
      rcases hab with ⟨h1, h2⟩
      simp only [jobOrder, Bool.or_eq_true, decide_eq_true_eq, Bool.and_eq_true,
        beq_iff_eq] at h1
      omega
    have hR : ((db.jobs.filter isPendingJob).filter (fun j => j.priority == p)).Pairwise
        (fun a b => a.created_at < b.created_at) :=
      (hmono.filter _).filter _
    have hperm2 : (db.get_pending_jobs.filter (fun j => j.priority == p)).Perm
        ((db.jobs.filter isPendingJob).filter (fun j => j.priority == p)) :=
      hperm.filter _
    haveI : IsAntisymm Job (fun a b => a.created_at < b.created_at) :=
      ⟨fun a b h1 h2 => absurd (Nat.lt_trans h1 h2) (Nat.lt_irrefl _)⟩
    exact List.eq_of_perm_of_sorted hperm2 hL hR

/-- A three-job queue used to instantiate the queue-ordering theorem. -/
def exDB : Database :=
  { papers := []
    jobs :=
      [ { id := "j-embed", paper_id := "p1", type := "EMBED",
          status := Value.str "pending", priority := 1, error := Value.null,
          created_at := 0, started_at := Value.null, finished_at := Value.null }
      , { id := "j-text", paper_id := "p1", type := "EXTRACT_TEXT",
          status := Value.str "pending", priority := 10, error := Value.null,
          created_at := 1, started_at := Value.null, finished_at := Value.null }
      , { id := "j-doi", paper_id := "p1", type := "EXTRACT_DOI",
          status := Value.str "completed", priority := 5, error := Value.null,
          created_at := 2, started_at := Value.null, finished_at := Value.null } ]
    chunks := []
    embeddings := [] }

/-- Witness: the queue-ordering theorem applied to the concrete queue `exDB`. -/
theorem get_pending_jobs_spec_witness :
    exDB.get_pending_jobs.Perm (exDB.jobs.filter isPendingJob) ∧
    exDB.get_pending_jobs.Pairwise
      (fun a b => b.priority < a.priority ∨
        (a.priority = b.priority ∧ a.created_at ≤ b.created_at)) ∧
    ∀ p : Int, exDB.get_pending_jobs.filter (fun j => j.priority == p)
             = (exDB.jobs.filter isPendingJob).filter (fun j => j.priority == p) :=
  get_pending_jobs_spec exDB (by decide)

/-! ## Generic row updates (`Database.update_job`, `Database.update_paper`)

Both update helpers iterate over the supplied key/value map, keep the keys
that appear in a fixed `allowed_fields` list, and issue a single `UPDATE ... SET`
on the row with the given id.  The iteration is modelled as a fold applying
the allowed assignments in order. -/

/-- The `allowed_fields` list of `Database.update_job`. -/
def job_allowed_fields : List String := ["status", "error", "started_at", "finished_at"]

/-- One `SET field = value` assignment on a job row. -/
def setJobField (j : Job) (field : String) (v : Value) : Job :=
  if field = "status" then { j with status := v }
  else if field = "error" then { j with error := v }
  else if field = "started_at" then { j with started_at := v }
  else if field = "finished_at" then { j with finished_at := v }
  else j

/-- The combined effect of `update_job`'s `SET` clause on one row: assignments
for keys outside `allowed_fields` are dropped, the rest applied in order. -/
def applyJobUpdates (j : Job) (updates : List (String × Value)) : Job :=
  updates.foldl
    (fun acc fv => if fv.1 ∈ job_allowed_fields then setJobField acc fv.1 fv.2 else acc) j

/-- `Database.update_job`: `UPDATE jobs SET ... WHERE id = ?`. -/
def Database.update_job (db : Database) (job_id : String)
    (updates : List (String × Value)) : Database :=
  { db with jobs := db.jobs.map (fun j => if j.id = job_id then applyJobUpdates j updates else j) }

/-- The `allowed_fields` list of `Database.update_paper`. -/
def paper_allowed_fields : List String :=
  ["title", "authors", "year", "doi", "indexed_at",
   "embeddings_ready", "status", "collection", "metadata"]

/-- One `SET field = value` assignment on a paper row. -/
def setPaperField (p : Paper) (field : String) (v : Value) : Paper :=
  if field = "title" then { p with title := v }
  else if field = "authors" then { p with authors := v }
  else if field = "year" then { p with year := v }
  else if field = "doi" then { p with doi := v }
  else if field = "indexed_at" then { p with indexed_at := v }
  else if field = "embeddings_ready" then { p with embeddings_ready := v }
  else if field = "status" then { p with status := v }
  else if field = "collection" then { p with collection := v }
  else if field = "metadata" then { p with metadata := v }
  else p

/-- The combined effect of `update_paper`'s `SET` clause on one row. -/
def applyPaperUpdates (p : Paper) (updates : List (String × Value)) : Paper :=
  updates.foldl
    (fun acc fv => if fv.1 ∈ paper_allowed_fields then setPaperField acc fv.1 fv.2 else acc) p

/-- `Database.update_paper`: `UPDATE papers SET ... WHERE id = ?`. -/
def Database.update_paper (db : Database) (paper_id : String)
    (updates : List (String × Value)) : Database :=
  { db with papers :=
      db.papers.map (fun p => if p.id = paper_id then applyPaperUpdates p updates else p) }

/-- A single assignment never touches a job's fixed columns. -/
theorem setJobField_fixed (j : Job) (f : String) (v : Value) :
    (setJobField j f v).id = j.id ∧ (setJobField j f v).paper_id = j.paper_id ∧
    (setJobField j f v).type = j.type ∧ (setJobField j f v).priority = j.priority ∧
    (setJobField j f v).created_at = j.created_at := by
  unfold setJobField
  repeat' split
  all_goals simp

/-- Unfolding one step of `applyJobUpdates`. -/
theorem applyJobUpdates_cons (j : Job) (fv : String × Value) (rest : List (String × Value)) :
    applyJobUpdates j (fv :: rest) =
      applyJobUpdates (if fv.1 ∈ job_allowed_fields then setJobField j fv.1 fv.2 else j) rest :=
  rfl

/-- Unfolding one step of `applyPaperUpdates`. -/
theorem applyPaperUpdates_cons (p : Paper) (fv : String × Value) (rest : List (String × Value)) :
    applyPaperUpdates p (fv :: rest) =
      applyPaperUpdates (if fv.1 ∈ paper_allowed_fields then setPaperField p fv.1 fv.2 else p) rest :=
  rfl

/-- `update_job`'s combined assignment never touches a job's fixed columns. -/
theorem applyJobUpdates_fixed (j : Job) (us : List (String × Value)) :
    (applyJobUpdates j us).id = j.id ∧ (applyJobUpdates j us).paper_id = j.paper_id ∧
    (applyJobUpdates j us).type = j.type ∧ (applyJobUpdates j us).priority = j.priority ∧
    (applyJobUpdates j us).created_at = j.created_at := by
  induction us generalizing j with
  | nil => exact ⟨rfl, rfl, rfl, rfl, rfl⟩
  | cons fv rest ih =>
    rw [applyJobUpdates_cons]
    split
    · obtain ⟨h1, h2, h3, h4, h5⟩ := ih (setJobField j fv.1 fv.2)
      obtain ⟨g1, g2, g3, g4, g5⟩ := setJobField_fixed j fv.1 fv.2
      exact ⟨h1.trans g1, h2.trans g2, h3.trans g3, h4.trans g4, h5.trans g5⟩
    · exact ih j

/-- A single assignment never touches a paper's fixed columns. -/
theorem setPaperField_fixed (p : Paper) (f : String) (v : Value) :
    (setPaperField p f v).id = p.id ∧ (setPaperField p f v).local_pdf_path = p.local_pdf_path ∧
    (setPaperField p f v).added_at = p.added_at ∧ (setPaperField p f v).source_url = p.source_url := by
  unfold setPaperField
  repeat' split
  all_goals simp

/-- `update_paper`'s combined assignment never touches a paper's fixed columns. -/
theorem applyPaperUpdates_fixed (p : Paper) (us : List (String × Value)) :
    (applyPaperUpdates p us).id = p.id ∧
    (applyPaperUpdates p us).local_pdf_path = p.local_pdf_path ∧
    (applyPaperUpdates p us).added_at = p.added_at ∧
    (applyPaperUpdates p us).source_url = p.source_url := by
  induction us generalizing p with
  | nil => exact ⟨rfl, rfl, rfl, rfl⟩
  | cons fv rest ih =>
    rw [applyPaperUpdates_cons]
    split
    · obtain ⟨h1, h2, h3, h4⟩ := ih (setPaperField p fv.1 fv.2)
      obtain ⟨g1, g2, g3, g4⟩ := setPaperField_fixed p fv.1 fv.2
      exact ⟨h1.trans g1, h2.trans g2, h3.trans g3, h4.trans g4⟩
    · exact ih p

/-- Dropping the non-allowed keys from an update map does not change the
resulting job row. -/
theorem applyJobUpdates_filter (j : Job) (us : List (String × Value)) :
    applyJobUpdates j (us.filter (fun fv => fv.1 ∈ job_allowed_fields)) =
      applyJobUpdates j us := by
  induction us generalizing j with
  | nil => rfl
  | cons fv rest ih =>
    by_cases h : fv.1 ∈ job_allowed_fields
    · rw [List.filter_cons_of_pos (by simpa using h), applyJobUpdates_cons,
        applyJobUpdates_cons, if_pos h]
      exact ih _
    · rw [List.filter_cons_of_neg (by simpa using h), applyJobUpdates_cons, if_neg h]
      exact ih _

/-- Dropping the non-allowed keys from an update map does not change the
resulting paper row. -/
theorem applyPaperUpdates_filter (p : Paper) (us : List (String × Value)) :
    applyPaperUpdates p (us.filter (fun fv => fv.1 ∈ paper_allowed_fields)) =
      applyPaperUpdates p us := by
  induction us generalizing p with
  | nil => rfl
  | cons fv rest ih =>
    by_cases h : fv.1 ∈ paper_allowed_fields
    · rw [List.filter_cons_of_pos (by simpa using h), applyPaperUpdates_cons,
        applyPaperUpdates_cons, if_pos h]
      exact ih _
    · rw [List.filter_cons_of_neg (by simpa using h), applyPaperUpdates_cons, if_neg h]
      exact ih _

/-- **C10.** `update_paper` and `update_job` only ever modify fields in their
fixed allowed lists: keys outside the list are silently ignored (filtering
them away yields the same database), and a paper's `id`, `local_pdf_path`,
`added_at` (likewise a job's `id`, `paper_id`, `type`, `priority`,
`created_at`) survive every update unchanged. -/
theorem update_fields_frame (db : Database) (pid jid : String)
    (pus jus : List (String × Value)) :
    db.update_paper pid (pus.filter (fun fv => fv.1 ∈ paper_allowed_fields)) =
      db.update_paper pid pus ∧
    db.update_job jid (jus.filter (fun fv => fv.1 ∈ job_allowed_fields)) =
      db.update_job jid jus ∧
    (∀ q ∈ (db.update_paper pid pus).papers, ∃ q0 ∈ db.papers,
      q.id = q0.id ∧ q.local_pdf_path = q0.local_pdf_path ∧ q.added_at = q0.added_at) ∧
    (∀ k ∈ (db.update_job jid jus).jobs, ∃ k0 ∈ db.jobs,
      k.id = k0.id ∧ k.paper_id = k0.paper_id ∧ k.type = k0.type ∧
      k.priority = k0.priority ∧ k.created_at = k0.created_at) := by
  refine ⟨?_, ?_, ?_, ?_⟩
  · unfold Database.update_paper
    congr 1
    exact List.map_congr_left (fun p _ => by
      split
      · exact applyPaperUpdates_filter p pus
      · rfl)
  · unfold Database.update_job
    congr 1
    exact List.map_congr_left (fun j _ => by
      split
      · exact applyJobUpdates_filter j jus
      · rfl)
  · intro q hq
    rcases List.mem_map.1 hq with ⟨q0, hq0, hmap⟩
    refine ⟨q0, hq0, ?_⟩
    subst hmap
    split
    · obtain ⟨h1, h2, h3, _⟩ := applyPaperUpdates_fixed q0 pus
      exact ⟨h1, h2, h3⟩
    · exact ⟨rfl, rfl, rfl⟩
  · intro k hk
    rcases List.mem_map.1 hk with ⟨k0, hk0, hmap⟩
    refine ⟨k0, hk0, ?_⟩
    subst hmap
    split
    · exact applyJobUpdates_fixed k0 jus
    · exact ⟨rfl, rfl, rfl, rfl, rfl⟩

/-- Witness: the frame theorem applied to the concrete queue `exDB` with an
update map mixing allowed, disallowed and unknown keys. -/
theorem update_fields_frame_witness :
    exDB.update_paper "p1" ([("title", Value.str "t"), ("id", Value.str "x")].filter
        (fun fv => fv.1 ∈ paper_allowed_fields)) =
      exDB.update_paper "p1" [("title", Value.str "t"), ("id", Value.str "x")] ∧
    exDB.update_job "j-embed" ([("status", Value.str "running"), ("priority", Value.int 99)].filter
        (fun fv => fv.1 ∈ job_allowed_fields)) =
      exDB.update_job "j-embed" [("status", Value.str "running"), ("priority", Value.int 99)] ∧
    (∀ q ∈ (exDB.update_paper "p1" [("title", Value.str "t"), ("id", Value.str "x")]).papers,
      ∃ q0 ∈ exDB.papers,
        q.id = q0.id ∧ q.local_pdf_path = q0.local_pdf_path ∧ q.added_at = q0.added_at) ∧
    (∀ k ∈ (exDB.update_job "j-embed" [("status", Value.str "running"), ("priority", Value.int 99)]).jobs,
      ∃ k0 ∈ exDB.jobs,
        k.id = k0.id ∧ k.paper_id = k0.paper_id ∧ k.type = k0.type ∧
        k.priority = k0.priority ∧ k.created_at = k0.created_at) :=
  update_fields_frame exDB "p1" "j-embed"
    [("title", Value.str "t"), ("id", Value.str "x")]
    [("status", Value.str "running"), ("priority", Value.int 99)]

/-! ## Claiming a job (C2)

`BatchProcessor._process_job` "claims" a job by calling
`update_job(job_id, {"status": "running", "started_at": now})`.
`update_job` issues an unconditional `UPDATE ... WHERE id = ?`: it never reads
the current status, so the transition succeeds on any row. -/

/-- The update map that `_process_job` uses to mark a job as running. -/
def markRunningUpdates (t : Nat) : List (String × Value) :=
  [("status", Value.str "running"), ("started_at", Value.time t)]

/-- **C2 (counterexample).** Claiming a job whose status is `completed` — not
`pending` — neither fails nor no-ops: the unconditional `UPDATE` moves the row
to `running`, so a second claim attempt on an already-claimed job also
succeeds. -/
theorem claim_job_counterexample :
    (exDB.update_job "j-doi" (markRunningUpdates 7)).jobs.map Job.status
      = [Value.str "pending", Value.str "pending", Value.str "running"] ∧
    (exDB.jobs.map Job.status)
      = [Value.str "pending", Value.str "pending", Value.str "completed"] := by
  constructor <;> rfl

/-- The effect of the mark-running update on the jobs table: the matching row
is moved to `running` with `started_at` recorded whatever its current status,
all other rows unchanged. -/
theorem update_job_mark_running (db : Database) (jid : String) (t : Nat) :
    (db.update_job jid (markRunningUpdates t)).jobs
      = db.jobs.map (fun k => if k.id = jid then
          { k with status := Value.str "running", started_at := Value.time t } else k) := by
  unfold Database.update_job
  refine List.map_congr_left (fun k _ => ?_)
  split
  · rfl
  · rfl

/-- **C2 (amended).** Marking a job as running transitions the matching row to
`running` and records `started_at` *unconditionally*: the code performs no
check that the current status is `pending`, every non-matching row is left
unchanged, and no error path exists.  (Consequently two claim attempts on the
same job both succeed; the second is not rejected.) -/
theorem claim_job_unconditional (db : Database) (jid : String) (t : Nat) :
    (db.update_job jid (markRunningUpdates t)).jobs
      = db.jobs.map (fun k => if k.id = jid then
          { k with status := Value.str "running", started_at := Value.time t } else k) :=
  update_job_mark_running db jid t

/-! ## Vector byte codec (`EmbeddingService.vector_to_bytes` / `bytes_to_vector`)

`vector_to_bytes` is `vector.astype(np.float32).tobytes()` and
`bytes_to_vector` is `np.frombuffer(data, dtype=np.float32)`.  The embedding
model produces `float32` arrays, on which `astype(np.float32)` is the
identity, so a stored vector element is exactly one little-endian 4-byte IEEE
754 pattern.  A `float32` element is modelled by its 32-bit pattern (a natural
below `2^32`); the codec then becomes the little-endian byte
serialisation, on which the round trip is proved exact — in particular every
element is reproduced within any tolerance, including the specified `1e-6`. -/

/-- The four little-endian bytes of one 32-bit element (`tobytes`). -/
def word32ToBytes (w : Nat) : List Nat :=
  [w % 256, w / 256 % 256, w / 65536 % 256, w / 16777216 % 256]

/-- `EmbeddingService.vector_to_bytes`: concatenate each element's 4 bytes. -/
def vector_to_bytes (v : List Nat) : List Nat :=
  (v.map word32ToBytes).flatten

/-- `EmbeddingService.bytes_to_vector`: reassemble consecutive 4-byte groups
into 32-bit elements (`np.frombuffer(data, dtype=np.float32)`). -/
def bytes_to_vector : List Nat → List Nat
  | b0 :: b1 :: b2 :: b3 :: rest =>
      (b0 + 256 * b1 + 65536 * b2 + 16777216 * b3) :: bytes_to_vector rest
  | _ => []

/-- **C8.** Encoding a `float32` vector to its byte representation and decoding
those bytes back reproduces the original vector exactly — so every component
is reproduced within the `1e-6` tolerance (the difference is zero). -/
theorem vector_bytes_roundtrip (v : List Nat) (hv : ∀ x ∈ v, x < 4294967296) :
    bytes_to_vector (vector_to_bytes v) = v := by
  induction v with
  | nil => rfl
  | cons x rest ih =>
    have hx : x < 4294967296 := hv x (List.mem_cons_self x rest)
    have hrest : bytes_to_vector (vector_to_bytes rest) = rest :=
      ih (fun y hy => hv y (List.mem_cons_of_mem x hy))
    show bytes_to_vector (word32ToBytes x ++ (rest.map word32ToBytes).flatten) = x :: rest
    simp only [word32ToBytes, List.cons_append, List.nil_append, bytes_to_vector]
    refine congrArg₂ _ ?_ hrest
    omega

/-- Witness: the codec round trip on a concrete two-element `float32` vector
(the patterns of 1.0f and -2.5f). -/
theorem vector_bytes_roundtrip_witness :
    bytes_to_vector (vector_to_bytes [1065353216, 3223322624]) = [1065353216, 3223322624] :=
  vector_bytes_roundtrip [1065353216, 3223322624] (by decide)

/-! ## Search engine (`EmbeddingService.search`, `normalize_scores`)

The search engine works on Python dictionaries (one per chunk).  A dictionary
is modelled as an insertion-ordered association list `Row` with unique keys;
float values are modelled as rationals, and a decoded numpy vector as a list
of rationals.  `np.dot` on two one-dimensional arrays of different sizes
raises `ValueError` ("shapes not aligned"), which is modelled by `Except`. -/

/-- A decoded embedding vector (a 1-D float array). -/
abbrev Vec := List ℚ

/-- A Python dictionary value appearing in search: a string, a float, or a
raw stored vector. -/
inductive RVal where
  | str (s : String)
  | num (q : ℚ)
  | vec (v : Vec)
deriving DecidableEq

/-- An insertion-ordered Python dictionary. -/
abbrev Row := List (String × RVal)

/-- `d[k]` lookup, as an option. -/
def Row.get (r : Row) (k : String) : Option RVal :=
  (r.find? (fun kv => kv.1 == k)).map (fun kv => kv.2)

/-- `d[k] = v`: replace in place if the key exists, else append. -/
def Row.set (r : Row) (k : String) (v : RVal) : Row :=
  if r.any (fun kv => kv.1 == k) then
    r.map (fun kv => if kv.1 == k then (k, v) else kv)
  else r ++ [(k, v)]

/-- `del d[k]`. -/
def Row.erase (r : Row) (k : String) : Row :=
  r.filter (fun kv => !(kv.1 == k))

/-- `np.dot` on two equal-length 1-D arrays: the sum of products. -/
def dot (a b : Vec) : ℚ :=
  (a.zip b).foldl (fun acc p => acc + p.1 * p.2) 0

/-- `EmbeddingService.cosine_similarity`: `float(np.dot(query_vec, doc_vec))`.
`np.dot` raises `ValueError` when the 1-D shapes differ, modelled by the
error branch. -/
def cosine_similarity (query_vec doc_vec : Vec) : Except String ℚ :=
  if query_vec.length = doc_vec.length then Except.ok (dot query_vec doc_vec)
  else Except.error "shapes not aligned"

/-- The body of the scoring loop of `search` for one chunk:
`result = {**chunk, "score": score}; del result["vector"]`. -/
def searchStep (query_vec : Vec) (chunk : Row) : Except String Row :=
  match chunk.get "vector" with
  | some (RVal.vec doc_vec) =>
      match cosine_similarity query_vec doc_vec with
      | Except.ok score => Except.ok ((chunk.set "score" (RVal.num score)).erase "vector")
      | Except.error e => Except.error e
  | _ => Except.error "KeyError: vector"

/-- The sort key access `x["score"]` (every scored result has the key). -/
def getScore (r : Row) : ℚ :=
  match r.get "score" with
  | some (RVal.num s) => s
  | _ => 0

/-- The comparison performed by `results.sort(key=lambda x: x["score"],
reverse=True)`: descending by score, stable on ties. -/
def searchLE (a b : Row) : Bool := decide (getScore b ≤ getScore a)

/-- `EmbeddingService.search` (with the query already embedded): score every
candidate, sort descending by score (Python's stable sort), return the first
`top_k`. -/
def search (query_vec : Vec) (chunks_with_embeddings : List Row) (top_k : Nat) :
    Except String (List Row) :=
  match chunks_with_embeddings.mapM (searchStep query_vec) with
  | Except.error e => Except.error e
  | Except.ok results => Except.ok ((results.mergeSort searchLE).take top_k)

/-- Python's `min` on a non-empty list (left fold from the first element). -/
def pymin : List ℚ → ℚ
  | [] => 0
  | a :: rest => rest.foldl min a

/-- Python's `max` on a non-empty list (left fold from the first element). -/
def pymax : List ℚ → ℚ
  | [] => 0
  | a :: rest => rest.foldl max a

/-- `EmbeddingService.normalize_scores`: linear min-max rescale of the
`score` of each result into a new `normalized_score` key; all-equal scores
(range zero) map to 0.5. -/
def normalize_scores (results : List Row) : List Row :=
  if results.isEmpty then results
  else if pymax (results.map getScore) - pymin (results.map getScore) = 0 then
    results.map (fun r => r.set "normalized_score" (RVal.num (1 / 2)))
  else
    results.map (fun r =>
      r.set "normalized_score" (RVal.num ((getScore r - pymin (results.map getScore)) /
        (pymax (results.map getScore) - pymin (results.map getScore)))))

theorem Row.get_erase_self (r : Row) (k : String) : (r.erase k).get k = none := by
  induction r with
  | nil => rfl
  | cons kv t ih =>
    show (((kv :: t).filter (fun kv => !(kv.1 == k))).find?
        (fun kv => kv.1 == k)).map (fun kv => kv.2) = none
    rw [List.filter_cons]
    by_cases h : kv.1 == k
    · rw [if_neg (by simp [h])]
      exact ih
    · rw [if_pos (by simp [h])]
      rw [List.find?_cons_of_neg _ (by simpa using h)]
      exact ih

theorem Row.get_erase_ne (r : Row) (k k2 : String) (hk : k ≠ k2) :
    (r.erase k2).get k = r.get k := by
  induction r with
  | nil => rfl
  | cons kv t ih =>
    show (((kv :: t).filter (fun kv => !(kv.1 == k2))).find?
        (fun kv => kv.1 == k)).map (fun kv => kv.2)
      = (((kv :: t).find? (fun kv => kv.1 == k)).map (fun kv => kv.2))
    rw [List.filter_cons]
    by_cases h2 : kv.1 == k2
    · have hk1 : (kv.1 == k) = false := by
        have h3 : kv.1 = k2 := by simpa [beq_iff_eq] using h2
        simp [beq_iff_eq, h3, Ne.symm hk]
      rw [if_neg (by simp [h2]), List.find?_cons_of_neg _ (by simp [hk1])]
      exact ih
    · rw [if_pos (by simp [h2])]
      by_cases h1 : kv.1 == k
      · rw [List.find?_cons_of_pos (p := fun kv : String × RVal => kv.1 == k) _ h1,
          List.find?_cons_of_pos (p := fun kv : String × RVal => kv.1 == k) _ h1]
      · rw [List.find?_cons_of_neg _ (by simpa using h1),
          List.find?_cons_of_neg _ (by simpa using h1)]
        exact ih

theorem find?_map_replace (t : Row) (k : String) (v : RVal)
    (hany : t.any (fun kv => kv.1 == k) = true) :
    (t.map (fun kv => if kv.1 == k then (k, v) else kv)).find? (fun kv => kv.1 == k)
      = some (k, v) := by
  induction t with
  | nil => simp at hany
  | cons kv t ih =>
    rw [List.map_cons]
    by_cases h : kv.1 == k
    · rw [if_pos h]
      rw [List.find?_cons_of_pos _ (by simp)]
    · rw [if_neg h]
      rw [List.find?_cons_of_neg _ (by simpa using h)]
      refine ih ?_
      rcases List.any_eq_true.1 hany with ⟨x, hx, hpx⟩
      rcases List.mem_cons.1 hx with rfl | hx2
      · exact absurd hpx (by simpa using h)
      · exact List.any_eq_true.2 ⟨x, hx2, hpx⟩

theorem Row.get_set_same (r : Row) (k : String) (v : RVal) :
    (r.set k v).get k = some v := by
  unfold Row.set Row.get
  by_cases hany : r.any (fun kv => kv.1 == k) = true
  · rw [if_pos hany, find?_map_replace r k v hany]
    rfl
  · rw [if_neg hany, List.find?_append]
    have h1 : r.find? (fun kv => kv.1 == k) = none := by
      rw [List.find?_eq_none]
      intro x hx hpx
      exact hany (List.any_eq_true.2 ⟨x, hx, hpx⟩)
    rw [h1]
    simp

/-! ### Facts about Python's `min` / `max` -/

theorem foldl_min_le_init (a : ℚ) (l : List ℚ) : l.foldl min a ≤ a := by
  induction l generalizing a with
  | nil => exact le_refl a
  | cons b t ih => exact (ih (min a b)).trans (min_le_left a b)

theorem foldl_min_le_mem {l : List ℚ} {x : ℚ} (a : ℚ) (hx : x ∈ l) : l.foldl min a ≤ x := by
  induction l generalizing a with
  | nil => cases hx
  | cons b t ih =>
    rcases List.mem_cons.1 hx with rfl | hx2
    · exact (foldl_min_le_init (min a x) t).trans (min_le_right a x)
    · exact ih (min a b) hx2

theorem init_le_foldl_max (a : ℚ) (l : List ℚ) : a ≤ l.foldl max a := by
  induction l generalizing a with
  | nil => exact le_refl a
  | cons b t ih => exact (le_max_left a b).trans (ih (max a b))

theorem mem_le_foldl_max {l : List ℚ} {x : ℚ} (a : ℚ) (hx : x ∈ l) : x ≤ l.foldl max a := by
  induction l generalizing a with
  | nil => cases hx
  | cons b t ih =>
    rcases List.mem_cons.1 hx with rfl | hx2
    · exact (le_max_right a x).trans (init_le_foldl_max (max a x) t)
    · exact ih (max a b) hx2

theorem pymin_le {l : List ℚ} {x : ℚ} (hx : x ∈ l) : pymin l ≤ x := by
  cases l with
  | nil => cases hx
  | cons a t =>
    rcases List.mem_cons.1 hx with rfl | hx2
    · exact foldl_min_le_init x t
    · exact foldl_min_le_mem a hx2

theorem le_pymax {l : List ℚ} {x : ℚ} (hx : x ∈ l) : x ≤ pymax l := by
  cases l with
  | nil => cases hx
  | cons a t =>
    rcases List.mem_cons.1 hx with rfl | hx2
    · exact init_le_foldl_max x t
    · exact mem_le_foldl_max a hx2

theorem foldl_min_mem (a : ℚ) (l : List ℚ) : l.foldl min a ∈ a :: l := by
  induction l generalizing a with
  | nil => exact List.mem_singleton.2 rfl
  | cons b t ih =>
    have h := ih (min a b)
    rcases List.mem_cons.1 h with h1 | h1
    · rcases min_choice a b with h2 | h2
      · exact List.mem_cons.2 (Or.inl (h1.trans h2))
      · exact List.mem_cons.2 (Or.inr (List.mem_cons.2 (Or.inl (h1.trans h2))))
    · exact List.mem_cons.2 (Or.inr (List.mem_cons.2 (Or.inr h1)))

theorem foldl_max_mem (a : ℚ) (l : List ℚ) : l.foldl max a ∈ a :: l := by
  induction l generalizing a with
  | nil => exact List.mem_singleton.2 rfl
  | cons b t ih =>
    have h := ih (max a b)
    rcases List.mem_cons.1 h with h1 | h1
    · rcases max_choice a b with h2 | h2
      · exact List.mem_cons.2 (Or.inl (h1.trans h2))
      · exact List.mem_cons.2 (Or.inr (List.mem_cons.2 (Or.inl (h1.trans h2))))
    · exact List.mem_cons.2 (Or.inr (List.mem_cons.2 (Or.inr h1)))

theorem pymin_mem {l : List ℚ} (h : l ≠ []) : pymin l ∈ l := by
  cases l with
  | nil => exact absurd rfl h
  | cons a t => exact foldl_min_mem a t

theorem pymax_mem {l : List ℚ} (h : l ≠ []) : pymax l ∈ l := by
  cases l with
  | nil => exact absurd rfl h
  | cons a t => exact foldl_max_mem a t

/-! ### The search theorems -/

/-- The vector stored under a chunk's `"vector"` key (empty if absent). -/
def chunkVec (c : Row) : Vec :=
  match c.get "vector" with
  | some (RVal.vec v) => v
  | _ => []

/-- The result dictionary `search` builds for one chunk. -/
def scoredResult (query_vec : Vec) (c : Row) : Row :=
  (c.set "score" (RVal.num (dot query_vec (chunkVec c)))).erase "vector"

theorem searchLE_trans (a b c : Row) (h1 : searchLE a b) (h2 : searchLE b c) :
    searchLE a c := by
  simp only [searchLE, decide_eq_true_eq] at *
  exact h2.trans h1

theorem searchLE_total (a b : Row) : searchLE a b || searchLE b a := by
  simp only [searchLE, Bool.or_eq_true, decide_eq_true_eq]
  exact le_total (getScore b) (getScore a)

theorem mapM_eq_ok {α β : Type} (f : α → Except String β) (g : α → β) (l : List α)
    (h : ∀ a ∈ l, f a = Except.ok (g a)) : l.mapM f = Except.ok (l.map g) := by
  induction l with
  | nil => rfl
  | cons a t ih =>
    rw [List.mapM_cons, h a (List.mem_cons_self a t),
      ih (fun x hx => h x (List.mem_cons_of_mem a hx))]
    rfl

theorem searchStep_ok (query_vec : Vec) (c : Row)
    (h1 : c.get "vector" = some (RVal.vec (chunkVec c)))
    (h2 : (chunkVec c).length = query_vec.length) :
    searchStep query_vec c = Except.ok (scoredResult query_vec c) := by
  unfold searchStep
  rw [h1]
  show (match cosine_similarity query_vec (chunkVec c) with
    | Except.ok score => Except.ok ((c.set "score" (RVal.num score)).erase "vector")
    | Except.error e => Except.error e) = _
  unfold cosine_similarity
  rw [if_pos h2.symm]
  rfl

/-- **C6.** With the query embedded and every candidate carrying a vector of
the query's dimension, `search` succeeds and returns the first `topK` entries
of a list that (i) is a permutation of the scored candidates, (ii) is sorted
by score descending, (iii) keeps any two candidates with tying (or ordered)
scores in their original candidate order (stability of Python's sort), and in
which (iv) every result carries its cosine-similarity score and no result
retains the raw `"vector"` entry. -/
theorem search_spec (query_vec : Vec) (chunks : List Row) (top_k : Nat)
    (hvec : ∀ c ∈ chunks, c.get "vector" = some (RVal.vec (chunkVec c)) ∧
      (chunkVec c).length = query_vec.length) :
    ∃ sortedAll : List Row,
      search query_vec chunks top_k = Except.ok (sortedAll.take top_k) ∧
      (sortedAll.take top_k).length ≤ top_k ∧
      sortedAll.Perm (chunks.map (scoredResult query_vec)) ∧
      sortedAll.Pairwise (fun a b => getScore b ≤ getScore a) ∧
      (∀ a b : Row, [a, b].Sublist (chunks.map (scoredResult query_vec)) →
        getScore b ≤ getScore a → [a, b].Sublist sortedAll) ∧
      (∀ r ∈ sortedAll, r.get "vector" = none ∧
        ∃ c ∈ chunks, r = scoredResult query_vec c ∧
          r.get "score" = some (RVal.num (dot query_vec (chunkVec c)))) := by
  refine ⟨(chunks.map (scoredResult query_vec)).mergeSort searchLE, ?_, ?_, ?_, ?_, ?_, ?_⟩
  · unfold search
    rw [mapM_eq_ok (searchStep query_vec) (scoredResult query_vec) chunks
      (fun c hc => searchStep_ok query_vec c (hvec c hc).1 (hvec c hc).2)]
  · rw [List.length_take]
    exact min_le_left _ _
  · exact List.mergeSort_perm _ _
  · exact (List.sorted_mergeSort searchLE_trans searchLE_total _).imp
      (fun h => by simpa only [searchLE, decide_eq_true_eq] using h)
  · intro a b hsub hle
    exact List.pair_sublist_mergeSort searchLE_trans searchLE_total
      (by simpa only [searchLE, decide_eq_true_eq] using hle) hsub
  · intro r hr
    have hr2 : r ∈ chunks.map (scoredResult query_vec) := List.mem_mergeSort.1 hr
    rcases List.mem_map.1 hr2 with ⟨c, hc, hmap⟩
    subst hmap
    refine ⟨Row.get_erase_self _ _, c, hc, rfl, ?_⟩
    unfold scoredResult
    rw [Row.get_erase_ne _ _ _ (by decide), Row.get_set_same]

/-- Two candidate chunk dictionaries for the search witness. -/
def exChunks : List Row :=
  [ [("id", RVal.str "c1"), ("text", RVal.str "a cat"), ("vector", RVal.vec [1, 0])]
  , [("id", RVal.str "c2"), ("text", RVal.str "stocks"), ("vector", RVal.vec [0, 1])] ]

/-- Witness: the search theorem applied to a concrete query and two concrete
candidates. -/
theorem search_spec_witness :
    ∃ sortedAll : List Row,
      search [1, 0] exChunks 5 = Except.ok (sortedAll.take 5) ∧
      (sortedAll.take 5).length ≤ 5 ∧
      sortedAll.Perm (exChunks.map (scoredResult [1, 0])) ∧
      sortedAll.Pairwise (fun a b => getScore b ≤ getScore a) ∧
      (∀ a b : Row, [a, b].Sublist (exChunks.map (scoredResult [1, 0])) →
        getScore b ≤ getScore a → [a, b].Sublist sortedAll) ∧
      (∀ r ∈ sortedAll, r.get "vector" = none ∧
        ∃ c ∈ exChunks, r = scoredResult [1, 0] c ∧
          r.get "score" = some (RVal.num (dot [1, 0] (chunkVec c)))) :=
  search_spec [1, 0] exChunks 5 (by decide)

/-- **C9.** A dimension mismatch between the query vector and a candidate
vector makes the similarity computation raise (`np.dot`'s `ValueError`)
rather than produce a score, and `search` on such a candidate propagates the
error instead of returning results. -/
theorem dimension_mismatch_raises (query_vec doc_vec : Vec) (chunk : Row)
    (rest : List Row) (top_k : Nat)
    (hv : chunk.get "vector" = some (RVal.vec doc_vec))
    (hlen : query_vec.length ≠ doc_vec.length) :
    cosine_similarity query_vec doc_vec = Except.error "shapes not aligned" ∧
    search query_vec (chunk :: rest) top_k = Except.error "shapes not aligned" := by
  have hcos : cosine_similarity query_vec doc_vec = Except.error "shapes not aligned" := by
    unfold cosine_similarity
    rw [if_neg hlen]
  refine ⟨hcos, ?_⟩
  have hstep : searchStep query_vec chunk = Except.error "shapes not aligned" := by
    unfold searchStep
    rw [hv]
    show (match cosine_similarity query_vec doc_vec with
      | Except.ok score => Except.ok ((chunk.set "score" (RVal.num score)).erase "vector")
      | Except.error e => Except.error e) = _
    rw [hcos]
  unfold search
  rw [List.mapM_cons, hstep]
  rfl

/-- Witness: a 2-dimensional query against a 3-dimensional stored vector. -/
theorem dimension_mismatch_raises_witness :
    cosine_similarity [1, 0] [1, 0, 0] = Except.error "shapes not aligned" ∧
    search [1, 0] ([("vector", RVal.vec [1, 0, 0])] :: []) 5
      = Except.error "shapes not aligned" :=
  dimension_mismatch_raises [1, 0] [1, 0, 0] [("vector", RVal.vec [1, 0, 0])] [] 5
    (by decide) (by decide)

/-- **C7.** On a non-empty result list with all-equal scores (including a
singleton) `normalize_scores` assigns `0.5` to every element; with differing
scores it assigns `(score - min) / (max - min)`, so the maximum maps to `1`,
the minimum to `0`, and every normalized score lies in `[0, 1]`. -/
theorem normalize_scores_spec (results : List Row) (hne : results ≠ []) :
    ((∀ a ∈ results, ∀ b ∈ results, getScore a = getScore b) →
      normalize_scores results
        = results.map (fun r => r.set "normalized_score" (RVal.num (1 / 2))) ∧
      ∀ r ∈ normalize_scores results,
        r.get "normalized_score" = some (RVal.num (1 / 2))) ∧
    ((∃ a ∈ results, ∃ b ∈ results, getScore a ≠ getScore b) →
      pymin (results.map getScore) < pymax (results.map getScore) ∧
      normalize_scores results = results.map (fun r =>
        r.set "normalized_score" (RVal.num ((getScore r - pymin (results.map getScore)) /
          (pymax (results.map getScore) - pymin (results.map getScore))))) ∧
      (∃ a ∈ results, getScore a = pymin (results.map getScore)) ∧
      (∃ b ∈ results, getScore b = pymax (results.map getScore)) ∧
      ∀ r ∈ results,
        (r.set "normalized_score" (RVal.num ((getScore r - pymin (results.map getScore)) /
            (pymax (results.map getScore) - pymin (results.map getScore)))))
          ∈ normalize_scores results ∧
        (r.set "normalized_score" (RVal.num ((getScore r - pymin (results.map getScore)) /
            (pymax (results.map getScore) - pymin (results.map getScore))))).get
              "normalized_score"
          = some (RVal.num ((getScore r - pymin (results.map getScore)) /
              (pymax (results.map getScore) - pymin (results.map getScore)))) ∧
        0 ≤ (getScore r - pymin (results.map getScore)) /
              (pymax (results.map getScore) - pymin (results.map getScore)) ∧
        (getScore r - pymin (results.map getScore)) /
              (pymax (results.map getScore) - pymin (results.map getScore)) ≤ 1 ∧
        (getScore r = pymax (results.map getScore) →
          (getScore r - pymin (results.map getScore)) /
              (pymax (results.map getScore) - pymin (results.map getScore)) = 1) ∧
        (getScore r = pymin (results.map getScore) →
          (getScore r - pymin (results.map getScore)) /
              (pymax (results.map getScore) - pymin (results.map getScore)) = 0)) := by
  have hne2 : results.map getScore ≠ [] := by
    intro h
    exact hne (List.map_eq_nil_iff.1 h)
  have hEmpty : ¬(results.isEmpty = true) := by
    cases results with
    | nil => exact absurd rfl hne
    | cons a t => simp
  constructor
  · intro hall
    have hrange : pymax (results.map getScore) - pymin (results.map getScore) = 0 := by
      rcases List.mem_map.1 (pymin_mem hne2) with ⟨a, ha, hga⟩
      rcases List.mem_map.1 (pymax_mem hne2) with ⟨b, hb, hgb⟩
      rw [← hga, ← hgb, hall b hb a ha, sub_self]
    have heq : normalize_scores results
        = results.map (fun r => r.set "normalized_score" (RVal.num (1 / 2))) := by
      unfold normalize_scores
      rw [if_neg hEmpty, if_pos hrange]
    refine ⟨heq, ?_⟩
    intro r hr
    rw [heq] at hr
    rcases List.mem_map.1 hr with ⟨r0, _, hmap⟩
    rw [← hmap]
    exact Row.get_set_same r0 "normalized_score" (RVal.num (1 / 2))
  · intro hdiff
    rcases hdiff with ⟨a, ha, b, hb, hab⟩
    have hma : pymin (results.map getScore) ≤ getScore a :=
      pymin_le (List.mem_map_of_mem getScore ha)
    have hmb : pymin (results.map getScore) ≤ getScore b :=
      pymin_le (List.mem_map_of_mem getScore hb)
    have hMa : getScore a ≤ pymax (results.map getScore) :=
      le_pymax (List.mem_map_of_mem getScore ha)
    have hMb : getScore b ≤ pymax (results.map getScore) :=
      le_pymax (List.mem_map_of_mem getScore hb)
    have hlt : pymin (results.map getScore) < pymax (results.map getScore) := by
      rcases lt_or_eq_of_le (hma.trans hMa) with h | h
      · exact h
      · exact absurd (le_antisymm (h ▸ hMa) (h ▸ hma) ▸
          le_antisymm (h ▸ hMb) (h ▸ hmb) ▸ rfl) hab
    have hpos : 0 < pymax (results.map getScore) - pymin (results.map getScore) :=
      sub_pos.2 hlt
    have heq : normalize_scores results = results.map (fun r =>
        r.set "normalized_score" (RVal.num ((getScore r - pymin (results.map getScore)) /
          (pymax (results.map getScore) - pymin (results.map getScore))))) := by
      unfold normalize_scores
      rw [if_neg hEmpty, if_neg (ne_of_gt hpos)]
    refine ⟨hlt, heq, ?_, ?_, ?_⟩
    · rcases List.mem_map.1 (pymin_mem hne2) with ⟨x, hx, hgx⟩
      exact ⟨x, hx, hgx⟩
    · rcases List.mem_map.1 (pymax_mem hne2) with ⟨x, hx, hgx⟩
      exact ⟨x, hx, hgx⟩
    · intro r hr
      have hrm : pymin (results.map getScore) ≤ getScore r :=
        pymin_le (List.mem_map_of_mem getScore hr)
      have hrM : getScore r ≤ pymax (results.map getScore) :=
        le_pymax (List.mem_map_of_mem getScore hr)
      refine ⟨?_, Row.get_set_same _ _ _, ?_, ?_, ?_, ?_⟩
      · rw [heq]
        exact List.mem_map_of_mem _ hr
      · exact div_nonneg (sub_nonneg.2 hrm) (le_of_lt hpos)
      · exact (div_le_one hpos).2 (sub_le_sub_right hrM _)
      · intro hmax
        rw [hmax]
        exact div_self (ne_of_gt hpos)
      · intro hmin
        rw [hmin, sub_self, zero_div]

/-- A concrete two-result list with differing scores. -/
def exResults : List Row := [[("score", RVal.num 1)], [("score", RVal.num 3)]]

/-- Witness: the normalization theorem applied to the concrete result list
`exResults`. -/
theorem normalize_scores_spec_witness :
    ((∀ a ∈ exResults, ∀ b ∈ exResults, getScore a = getScore b) →
      normalize_scores exResults
        = exResults.map (fun r => r.set "normalized_score" (RVal.num (1 / 2))) ∧
      ∀ r ∈ normalize_scores exResults,
        r.get "normalized_score" = some (RVal.num (1 / 2))) ∧
    ((∃ a ∈ exResults, ∃ b ∈ exResults, getScore a ≠ getScore b) →
      pymin (exResults.map getScore) < pymax (exResults.map getScore) ∧
      normalize_scores exResults = exResults.map (fun r =>
        r.set "normalized_score" (RVal.num ((getScore r - pymin (exResults.map getScore)) /
          (pymax (exResults.map getScore) - pymin (exResults.map getScore))))) ∧
      (∃ a ∈ exResults, getScore a = pymin (exResults.map getScore)) ∧
      (∃ b ∈ exResults, getScore b = pymax (exResults.map getScore)) ∧
      ∀ r ∈ exResults,
        (r.set "normalized_score" (RVal.num ((getScore r - pymin (exResults.map getScore)) /
            (pymax (exResults.map getScore) - pymin (exResults.map getScore)))))
          ∈ normalize_scores exResults ∧
        (r.set "normalized_score" (RVal.num ((getScore r - pymin (exResults.map getScore)) /
            (pymax (exResults.map getScore) - pymin (exResults.map getScore))))).get
              "normalized_score"
          = some (RVal.num ((getScore r - pymin (exResults.map getScore)) /
              (pymax (exResults.map getScore) - pymin (exResults.map getScore)))) ∧
        0 ≤ (getScore r - pymin (exResults.map getScore)) /
              (pymax (exResults.map getScore) - pymin (exResults.map getScore)) ∧
        (getScore r - pymin (exResults.map getScore)) /
              (pymax (exResults.map getScore) - pymin (exResults.map getScore)) ≤ 1 ∧
        (getScore r = pymax (exResults.map getScore) →
          (getScore r - pymin (exResults.map getScore)) /
              (pymax (exResults.map getScore) - pymin (exResults.map getScore)) = 1) ∧
        (getScore r = pymin (exResults.map getScore) →
          (getScore r - pymin (exResults.map getScore)) /
              (pymax (exResults.map getScore) - pymin (exResults.map getScore)) = 0)) :=
  normalize_scores_spec exResults (by decide)

/-! ## Batch processor (`services/batch_processor.py`)

`run_batch` drains the pending queue: fetch pending jobs, process the head,
repeat.  Each `_process_job` marks the job running, loads the paper, checks
the PDF exists, dispatches on the job type, and marks the job completed; the
orchestrator catches any raised error and marks the job failed with the error
text and `finished_at`.  `datetime.utcnow()` is modelled by a monotone tick
counter threaded through the computation; the collaborators
(`extract_text_from_pdf`, `extract_doi_from_pdf`, the embedding model, the
file system) are modelled by an explicit environment of total functions.  The
Python `while True` loop is modelled with fuel; `run_batch` supplies
`jobs.length` fuel, which the drain theorem shows is enough to empty the
queue. -/

/-- `SELECT * FROM papers WHERE id = ?` (first row, if any). -/
def Database.get_paper (db : Database) (paper_id : String) : Option Paper :=
  db.papers.find? (fun p => p.id == paper_id)

/-- The comparison key of `ORDER BY page, chunk_index`. -/
def chunkOrder (a b : Chunk) : Bool :=
  decide (a.page < b.page) || (a.page == b.page && decide (a.chunk_index ≤ b.chunk_index))

/-- `Database.get_chunks`:
`SELECT * FROM chunks WHERE paper_id = ? ORDER BY page, chunk_index`. -/
def Database.get_chunks (db : Database) (paper_id : String) : List Chunk :=
  (db.chunks.filter (fun c => c.paper_id == paper_id)).mergeSort chunkOrder

/-- `Database.delete_chunks`: `DELETE FROM chunks WHERE paper_id = ?`. -/
def Database.delete_chunks (db : Database) (paper_id : String) : Database :=
  { db with chunks := db.chunks.filter (fun c => !(c.paper_id == paper_id)) }

/-- `Database.add_chunks`: one `INSERT OR REPLACE` per chunk (replace on
primary-key collision). -/
def Database.add_chunks (db : Database) (cs : List Chunk) : Database :=
  cs.foldl (fun acc c =>
    { acc with chunks := acc.chunks.filter (fun c2 => !(c2.id == c.id)) ++ [c] }) db

/-- `Database.add_embedding`: `INSERT OR REPLACE INTO embeddings`. -/
def Database.add_embedding (db : Database) (chunk_id : String) (vector : List Nat) : Database :=
  { db with embeddings :=
      db.embeddings.filter (fun kv => !(kv.1 == chunk_id)) ++ [(chunk_id, vector)] }

/-- The stored vector bytes for a chunk id, if present. -/
def embeddingOf (db : Database) (chunk_id : String) : Option (List Nat) :=
  (db.embeddings.find? (fun kv => kv.1 == chunk_id)).map (fun kv => kv.2)

/-- The external collaborators of the batch processor, as total functions:
the file system, `extract_text_from_pdf` (chunk tuples plus a `has_text`
flag), `extract_doi_from_pdf`, and the embedding model (one `float32`
bit-pattern vector per text, per the collaborator contract). -/
structure Env where
  fileExists : String → Bool
  extract_text_from_pdf : String → List Chunk × Bool
  extract_doi_from_pdf : String → Option String
  embed_text : String → List Nat

/-- `BatchProcessor._extract_text`.  The `has_text = False` branch stores the
JSON-serialised metadata dict and status `needs_ocr`; otherwise existing
chunks are replaced and the paper marked `indexed`. -/
def extract_text_stage (env : Env) (db : Database) (now : Nat) (paper : Paper) :
    Option String × Database × Nat :=
  match env.extract_text_from_pdf paper.local_pdf_path with
  | (chunks0, has_text) =>
    if !has_text then
      (none, db.update_paper paper.id
        [("status", Value.str "needs_ocr"),
         ("metadata", Value.str "\x7b\"has_text\": false\x7d")], now)
    else
      (none,
        ((db.delete_chunks paper.id).add_chunks
            (chunks0.map (fun c => { c with paper_id := paper.id }))).update_paper paper.id
          [("indexed_at", Value.time now), ("status", Value.str "indexed")],
        now + 1)

/-- `BatchProcessor._extract_doi`: a found DOI is stored; absence is not an
error. -/
def extract_doi_stage (env : Env) (db : Database) (now : Nat) (paper : Paper) :
    Option String × Database × Nat :=
  match env.extract_doi_from_pdf paper.local_pdf_path with
  | some doi => (none, db.update_paper paper.id [("doi", Value.str doi)], now)
  | none => (none, db, now)

/-- The inner write of the embedding loop: store one chunk's encoded vector. -/
def writeChunkEmbeddings (env : Env) (db : Database) (cs : List Chunk) : Database :=
  cs.foldl (fun acc c =>
    acc.add_embedding c.id (vector_to_bytes (env.embed_text c.text))) db

/-- The batched embedding loop of `_compute_embeddings`
(`for i in range(0, len(texts), 32)`): each round embeds the next 32 chunk
texts and stores one vector per chunk (the collaborator returns one embedding
per input text). -/
def embedInBatches (env : Env) (db : Database) (cs : List Chunk) : Database :=
  if cs.isEmpty then db
  else embedInBatches env (writeChunkEmbeddings env db (cs.take 32)) (cs.drop 32)
termination_by cs.length
decreasing_by
  rename_i h
  rw [List.length_drop]
  cases cs with
  | nil => simp at h
  | cons a t => simp only [List.length_cons]; omega

/-- `BatchProcessor._compute_embeddings`: fail explicitly when the paper has
no chunks; otherwise embed every chunk in batches and finally set
`embeddings_ready = 1`. -/
def compute_embeddings_stage (env : Env) (db : Database) (now : Nat) (paper : Paper) :
    Option String × Database × Nat :=
  if (db.get_chunks paper.id).isEmpty then
    (some ("No chunks found for paper " ++ paper.id ++ ". Run text extraction first."),
      db, now)
  else
    (none,
      (embedInBatches env db (db.get_chunks paper.id)).update_paper paper.id
        [("embeddings_ready", Value.int 1)],
      now)

/-- The dispatch on `job_type` in `_process_job` (after the job has been
marked running, the paper loaded and the PDF checked). -/
def dispatch_stage (env : Env) (db1 : Database) (now1 : Nat) (job : Job) (paper : Paper) :
    Option String × Database × Nat :=
  if job.type = "EXTRACT_TEXT" then extract_text_stage env db1 now1 paper
  else if job.type = "EXTRACT_DOI" then extract_doi_stage env db1 now1 paper
  else if job.type = "EMBED" then compute_embeddings_stage env db1 now1 paper
  else (some ("Unknown job type: " ++ job.type), db1, now1)

/-- The final step of `_process_job`: a successful dispatch marks the job
completed with `finished_at`; a raised error propagates to the caller. -/
def finish_job (jid : String) : Option String × Database × Nat → Option String × Database × Nat
  | (some e, db2, now2) => (some e, db2, now2)
  | (none, db2, now2) =>
    (none,
      db2.update_job jid
        [("status", Value.str "completed"), ("finished_at", Value.time now2)],
      now2 + 1)

/-- `_process_job` after the job has been marked running (`db1`, clock
`now1`): load the paper (raise when missing), check the PDF file (raise when
missing), dispatch and finish. -/
def process_job_loaded (env : Env) (db1 : Database) (now1 : Nat) (job : Job) :
    Option Paper → Option String × Database × Nat
  | none => (some ("Paper " ++ job.paper_id ++ " not found"), db1, now1)
  | some paper =>
    if !(env.fileExists paper.local_pdf_path) then
      (some ("PDF not found: " ++ paper.local_pdf_path), db1, now1)
    else finish_job job.id (dispatch_stage env db1 now1 job paper)

/-- `BatchProcessor._process_job`: mark running, load the paper, check the
PDF, dispatch on the job type, mark completed.  The first component is the
raised error, if any; the database and clock components always reflect the
mutations performed before the raise. -/
def process_job (env : Env) (db : Database) (now : Nat) (job : Job) :
    Option String × Database × Nat :=
  process_job_loaded env (db.update_job job.id (markRunningUpdates now)) (now + 1) job
    ((db.update_job job.id (markRunningUpdates now)).get_paper job.paper_id)

/-- The accumulated state of `run_batch`'s drain loop. -/
structure LoopOut where
  processed : Nat
  failed : Nat
  errors : List (String × String)
  db : Database
  now : Nat
deriving DecidableEq

/-- The `while True` drain loop of `run_batch`: fetch pending jobs, stop when
none remain, otherwise process the head; a raised error marks the job failed
with the error text and `finished_at` and is appended to the error list. -/
def run_batch_loop (env : Env) (fuel : Nat) (db : Database) (now : Nat)
    (processed failed : Nat) (errors : List (String × String)) : LoopOut :=
  match fuel with
  | 0 => ⟨processed, failed, errors, db, now⟩
  | fuel' + 1 =>
    match db.get_pending_jobs with
    | [] => ⟨processed, failed, errors, db, now⟩
    | job :: _ =>
      match process_job env db now job with
      | (none, db1, now1) => run_batch_loop env fuel' db1 now1 (processed + 1) failed errors
      | (some e, db1, now1) =>
        run_batch_loop env fuel'
          (db1.update_job job.id
            [("status", Value.str "failed"), ("error", Value.str e),
             ("finished_at", Value.time now1)])
          (now1 + 1) processed (failed + 1) (errors ++ [(job.id, e)])

/-- The in-process state of a `BatchProcessor`: the `_running` flag plus the
store and clock. -/
structure BPState where
  running : Bool
  db : Database
  now : Nat

/-- The dictionary `run_batch` returns: either the busy rejection or the
completed summary with processed/failed counts and the failure list. -/
inductive BatchResult where
  | busy
  | completed (processed failed : Nat) (errors : List (String × String))
deriving DecidableEq

/-- `BatchProcessor.run_batch`: reject immediately when `_running` is set;
otherwise drain the queue (the `jobs.length` fuel bounds the number of loop
iterations, shown sufficient by the drain theorem) and clear the flag. -/
def run_batch (env : Env) (st : BPState) : BatchResult × BPState :=
  if st.running then (BatchResult.busy, st)
  else
    let out := run_batch_loop env st.db.jobs.length st.db st.now 0 0 []
    (BatchResult.completed out.processed out.failed out.errors,
      { running := false, db := out.db, now := out.now })

/-- **C3.** `run_batch` called while `_running` is set returns the busy
result immediately and leaves the entire state — in particular every job
row — unchanged. -/
theorem run_batch_busy (env : Env) (st : BPState) (h : st.running = true) :
    run_batch env st = (BatchResult.busy, st) := by
  unfold run_batch
  rw [if_pos h]

/-- An environment of trivial collaborators for concrete instantiations. -/
def exEnv : Env :=
  { fileExists := fun _ => true
    extract_text_from_pdf := fun _ => ([], true)
    extract_doi_from_pdf := fun _ => none
    embed_text := fun _ => [1065353216] }

/-- Witness: a busy `run_batch` call on a concrete state is rejected without
touching it. -/
theorem run_batch_busy_witness :
    run_batch exEnv { running := true, db := exDB, now := 0 }
      = (BatchResult.busy, { running := true, db := exDB, now := 0 }) :=
  run_batch_busy exEnv { running := true, db := exDB, now := 0 } rfl

/-! ### Frame lemmas: which tables each operation touches -/

theorem update_paper_jobs (db : Database) (pid : String) (us : List (String × Value)) :
    (db.update_paper pid us).jobs = db.jobs := rfl

theorem update_paper_embeddings (db : Database) (pid : String) (us : List (String × Value)) :
    (db.update_paper pid us).embeddings = db.embeddings := rfl

theorem delete_chunks_jobs (db : Database) (pid : String) :
    (db.delete_chunks pid).jobs = db.jobs := rfl

theorem add_embedding_jobs (db : Database) (cid : String) (b : List Nat) :
    (db.add_embedding cid b).jobs = db.jobs := rfl

theorem add_chunks_jobs (db : Database) (cs : List Chunk) :
    (db.add_chunks cs).jobs = db.jobs := by
  induction cs generalizing db with
  | nil => rfl
  | cons c t ih => exact ih _

theorem writeChunkEmbeddings_jobs (env : Env) (cs : List Chunk) (db : Database) :
    (writeChunkEmbeddings env db cs).jobs = db.jobs := by
  induction cs generalizing db with
  | nil => rfl
  | cons c t ih => exact ih _

/-- The batched embedding loop equals the flat fold over all chunks: each
round handles the next 32 chunks, and the rounds concatenate. -/
theorem embedInBatches_eq_aux (env : Env) :
    ∀ (n : Nat) (db : Database) (cs : List Chunk), cs.length ≤ n →
    embedInBatches env db cs = writeChunkEmbeddings env db cs := by
  intro n
  induction n with
  | zero =>
    intro db cs h
    have hnil : cs = [] := List.eq_nil_of_length_eq_zero (Nat.le_zero.1 h)
    subst hnil
    rw [embedInBatches]
    rfl
  | succ n ih =>
    intro db cs h
    rw [embedInBatches]
    by_cases hcs : cs.isEmpty
    · rw [if_pos hcs]
      have hnil : cs = [] := by
        cases cs with
        | nil => rfl
        | cons a t => simp at hcs
      subst hnil
      rfl
    · rw [if_neg hcs]
      have hlen : (cs.drop 32).length ≤ n := by
        rw [List.length_drop]
        have hpos : 0 < cs.length := by
          cases cs with
          | nil => simp at hcs
          | cons a t => simp
        omega
      rw [ih _ _ hlen]
      unfold writeChunkEmbeddings
      rw [← List.foldl_append, List.take_append_drop]

theorem embedInBatches_eq (env : Env) (db : Database) (cs : List Chunk) :
    embedInBatches env db cs = writeChunkEmbeddings env db cs :=
  embedInBatches_eq_aux env cs.length db cs (le_refl _)

theorem embedInBatches_jobs (env : Env) (db : Database) (cs : List Chunk) :
    (embedInBatches env db cs).jobs = db.jobs := by
  rw [embedInBatches_eq]
  exact writeChunkEmbeddings_jobs env cs db

theorem extract_text_stage_jobs (env : Env) (db : Database) (now : Nat) (paper : Paper) :
    (extract_text_stage env db now paper).2.1.jobs = db.jobs := by
  unfold extract_text_stage
  rcases env.extract_text_from_pdf paper.local_pdf_path with ⟨chunks0, has_text⟩
  by_cases h : has_text
  · rw [h]
    show ((((db.delete_chunks paper.id).add_chunks _).update_paper _ _)).jobs = db.jobs
    rw [update_paper_jobs, add_chunks_jobs, delete_chunks_jobs]
  · have h2 : has_text = false := by
      cases has_text
      · rfl
      · exact absurd rfl h
    rw [h2]
    rfl

theorem extract_doi_stage_jobs (env : Env) (db : Database) (now : Nat) (paper : Paper) :
    (extract_doi_stage env db now paper).2.1.jobs = db.jobs := by
  unfold extract_doi_stage
  rcases env.extract_doi_from_pdf paper.local_pdf_path with _ | doi
  · rfl
  · rfl

theorem compute_embeddings_stage_jobs (env : Env) (db : Database) (now : Nat) (paper : Paper) :
    (compute_embeddings_stage env db now paper).2.1.jobs = db.jobs := by
  unfold compute_embeddings_stage
  by_cases h : (db.get_chunks paper.id).isEmpty
  · rw [if_pos h]
  · rw [if_neg h]
    show ((embedInBatches env db _).update_paper _ _).jobs = db.jobs
    rw [update_paper_jobs, embedInBatches_jobs]

/-- Two successive per-id row updates compose into one. -/
theorem map_if_comp (l : List Job) (i : String) (f g : Job → Job)
    (hf : ∀ k, (f k).id = k.id) :
    (l.map (fun k => if k.id = i then f k else k)).map
        (fun k => if k.id = i then g k else k)
      = l.map (fun k => if k.id = i then g (f k) else k) := by
  rw [List.map_map]
  refine List.map_congr_left (fun k _ => ?_)
  show (fun k => if k.id = i then g k else k) (if k.id = i then f k else k) = _
  by_cases h : k.id = i
  · rw [if_pos h, if_pos h]
    show (if (f k).id = i then g (f k) else f k) = g (f k)
    rw [if_pos ((hf k).trans h)]
  · rw [if_neg h, if_neg h]
    show (if k.id = i then g k else k) = k
    rw [if_neg h]

/-- The dispatch never touches the jobs table, whatever the job type. -/
theorem dispatch_stage_jobs (env : Env) (db1 : Database) (now1 : Nat) (job : Job)
    (paper : Paper) :
    (dispatch_stage env db1 now1 job paper).2.1.jobs = db1.jobs := by
  unfold dispatch_stage
  by_cases h1 : job.type = "EXTRACT_TEXT"
  · rw [if_pos h1]
    exact extract_text_stage_jobs env db1 now1 paper
  · rw [if_neg h1]
    by_cases h2 : job.type = "EXTRACT_DOI"
    · rw [if_pos h2]
      exact extract_doi_stage_jobs env db1 now1 paper
    · rw [if_neg h2]
      by_cases h3 : job.type = "EMBED"
      · rw [if_pos h3]
        exact compute_embeddings_stage_jobs env db1 now1 paper
      · rw [if_neg h3]

/-- `_process_job` either succeeds — leaving the processed job's row
`completed` with `started_at` and `finished_at` recorded — or raises, leaving
the row as claimed (`running` with `started_at`).  All other rows are
untouched in both cases. -/
theorem process_job_cases (env : Env) (db : Database) (now : Nat) (job : Job) :
    (∃ db2 now2 t, process_job env db now job = (none, db2, now2) ∧
      db2.jobs = db.jobs.map (fun k => if k.id = job.id then
        { k with
            status := Value.str "completed",
            started_at := Value.time now,
            finished_at := Value.time t } else k)) ∨
    (∃ e db2 now2, process_job env db now job = (some e, db2, now2) ∧
      db2.jobs = db.jobs.map (fun k => if k.id = job.id then
        { k with status := Value.str "running", started_at := Value.time now } else k)) := by
  have hdb1 : (db.update_job job.id (markRunningUpdates now)).jobs
      = db.jobs.map (fun k => if k.id = job.id then
        { k with status := Value.str "running", started_at := Value.time now } else k) :=
    update_job_mark_running db job.id now
  unfold process_job
  rcases hpaper : (db.update_job job.id (markRunningUpdates now)).get_paper job.paper_id with
    _ | paper
  · exact Or.inr ⟨_, _, _, rfl, hdb1⟩
  · simp only [process_job_loaded]
    cases hfile : env.fileExists paper.local_pdf_path with
    | false =>
      rw [if_pos (show (!false) = true by decide)]
      exact Or.inr ⟨_, _, _, rfl, hdb1⟩
    | true =>
      rw [if_neg (show ¬((!true) = true) by decide)]
      rcases hS : dispatch_stage env (db.update_job job.id (markRunningUpdates now)) (now + 1)
          job paper with ⟨eopt, db2, now2⟩
      have hdb2 : db2.jobs = (db.update_job job.id (markRunningUpdates now)).jobs := by
        have h := dispatch_stage_jobs env (db.update_job job.id (markRunningUpdates now))
          (now + 1) job paper
        rw [hS] at h
        exact h
      cases eopt with
      | none =>
        refine Or.inl ⟨_, _, now2, rfl, ?_⟩
        show db2.jobs.map (fun k => if k.id = job.id then
          applyJobUpdates k
            [("status", Value.str "completed"), ("finished_at", Value.time now2)] else k) = _
        rw [hdb2, hdb1]
        exact map_if_comp db.jobs job.id _ _ (fun k => rfl)
      | some e =>
        exact Or.inr ⟨e, db2, now2, rfl, hdb2.trans hdb1⟩

/-! ### The embedding stage (C5) -/

theorem find?_filter_of_imp {α : Type} (l : List α) (p q : α → Bool)
    (h : ∀ x, p x = true → q x = true) :
    (l.filter q).find? p = l.find? p := by
  induction l with
  | nil => rfl
  | cons a t ih =>
    rw [List.filter_cons]
    by_cases hq : q a = true
    · rw [if_pos hq]
      by_cases hp : p a = true
      · rw [List.find?_cons_of_pos _ hp, List.find?_cons_of_pos _ hp]
      · rw [List.find?_cons_of_neg _ hp, List.find?_cons_of_neg _ hp]
        exact ih
    · rw [if_neg hq]
      have hp : ¬(p a = true) := fun hpa => hq (h a hpa)
      rw [List.find?_cons_of_neg _ hp]
      exact ih

theorem embeddingOf_add_same (db : Database) (cid : String) (b : List Nat) :
    embeddingOf (db.add_embedding cid b) cid = some b := by
  unfold Database.add_embedding embeddingOf
  rw [List.find?_append]
  have h1 : (db.embeddings.filter (fun kv => !(kv.1 == cid))).find?
      (fun kv => kv.1 == cid) = none := by
    rw [List.find?_eq_none]
    intro x hx
    have h2 := (List.mem_filter.1 hx).2
    simp only [Bool.not_eq_true'] at h2
    simp [h2]
  rw [h1]
  simp

theorem embeddingOf_add_other (db : Database) (cid2 cid : String) (b : List Nat)
    (h : cid2 ≠ cid) :
    embeddingOf (db.add_embedding cid2 b) cid = embeddingOf db cid := by
  unfold Database.add_embedding embeddingOf
  rw [List.find?_append]
  have h2 : List.find? (fun kv => kv.1 == cid) [(cid2, b)] = none := by
    simp [h]
  rw [h2, Option.or_none,
    find?_filter_of_imp db.embeddings (fun kv => kv.1 == cid) (fun kv => !(kv.1 == cid2))
      (fun x hx => by
        have h3 : x.1 = cid := by simpa using hx
        simp [h3, Ne.symm h])]

theorem writeChunkEmbeddings_cons (env : Env) (db : Database) (c : Chunk) (t : List Chunk) :
    writeChunkEmbeddings env db (c :: t)
      = writeChunkEmbeddings env
          (db.add_embedding c.id (vector_to_bytes (env.embed_text c.text))) t := rfl

theorem writeChunkEmbeddings_other (env : Env) (cs : List Chunk) (db : Database)
    (cid : String) (h : ∀ c ∈ cs, c.id ≠ cid) :
    embeddingOf (writeChunkEmbeddings env db cs) cid = embeddingOf db cid := by
  induction cs generalizing db with
  | nil => rfl
  | cons c t ih =>
    rw [writeChunkEmbeddings_cons,
      ih _ (fun x hx => h x (List.mem_cons_of_mem c hx)),
      embeddingOf_add_other _ _ _ _ (h c (List.mem_cons_self c t))]

/-- After the embedding loop, every processed chunk's stored vector is the
byte encoding of its text's embedding. -/
theorem writeChunkEmbeddings_mem (env : Env) (cs : List Chunk) (db : Database)
    (hnodup : (cs.map Chunk.id).Nodup) :
    ∀ c ∈ cs, embeddingOf (writeChunkEmbeddings env db cs) c.id
      = some (vector_to_bytes (env.embed_text c.text)) := by
  induction cs generalizing db with
  | nil => intro c hc; cases hc
  | cons a t ih =>
    intro c hc
    rcases List.mem_cons.1 hc with rfl | hc2
    · have hne : ∀ x ∈ t, x.id ≠ c.id := by
        intro x hx heq
        have h1 : c.id ∈ t.map Chunk.id := heq ▸ List.mem_map_of_mem Chunk.id hx
        exact (List.nodup_cons.1 hnodup).1 h1
      rw [writeChunkEmbeddings_cons, writeChunkEmbeddings_other env t _ c.id hne,
        embeddingOf_add_same]
    · exact ih _ (List.nodup_cons.1 hnodup).2 c hc2

theorem embeddingOf_update_paper (db : Database) (pid : String)
    (us : List (String × Value)) (cid : String) :
    embeddingOf (db.update_paper pid us) cid = embeddingOf db cid := rfl

/-- Setting `embeddings_ready = 1` marks exactly the targeted paper rows. -/
theorem update_paper_flag (db : Database) (pid : String) :
    ∀ q ∈ (db.update_paper pid [("embeddings_ready", Value.int 1)]).papers,
      q.id = pid → q.embeddings_ready = Value.int 1 := by
  intro q hq hid
  rcases List.mem_map.1 hq with ⟨q0, hq0, hmap⟩
  by_cases h : q0.id = pid
  · rw [← hmap, if_pos h]
    rfl
  · rw [← hmap, if_neg h] at hid ⊢
    exact absurd hid h

/-- **C5.** An EMBED job on a paper with zero stored chunks fails with the
explicit "no chunks" error and leaves the database (in particular the
`embeddings_ready` flag) untouched — indeed every raised error from this
stage is that one and mutates nothing; when the stage succeeds,
`embeddings_ready` is set to 1 on the paper only after every chunk of the
paper has had its embedding written in this pass. -/
theorem compute_embeddings_spec (env : Env) (db : Database) (now : Nat) (paper : Paper)
    (hnodup : (db.chunks.map Chunk.id).Nodup) :
    (db.get_chunks paper.id = [] →
      compute_embeddings_stage env db now paper =
        (some ("No chunks found for paper " ++ paper.id ++ ". Run text extraction first."),
          db, now)) ∧
    (∀ e db1 now1, compute_embeddings_stage env db now paper = (some e, db1, now1) →
      db.get_chunks paper.id = [] ∧ db1 = db ∧ now1 = now ∧
      e = "No chunks found for paper " ++ paper.id ++ ". Run text extraction first.") ∧
    (∀ db1 now1, compute_embeddings_stage env db now paper = (none, db1, now1) →
      (∀ q ∈ db1.papers, q.id = paper.id → q.embeddings_ready = Value.int 1) ∧
      (∀ c ∈ db.get_chunks paper.id,
        embeddingOf db1 c.id = some (vector_to_bytes (env.embed_text c.text)))) := by
  have hnodup2 : ((db.get_chunks paper.id).map Chunk.id).Nodup := by
    have hperm : (db.get_chunks paper.id).Perm
        (db.chunks.filter (fun c => c.paper_id == paper.id)) :=
      List.mergeSort_perm _ _
    have h1 : ((db.chunks.filter (fun c => c.paper_id == paper.id)).map Chunk.id).Nodup :=
      List.Nodup.sublist ((db.chunks.filter_sublist).map Chunk.id) hnodup
    exact ((hperm.map Chunk.id).nodup_iff).2 h1
  refine ⟨?_, ?_, ?_⟩
  · intro h
    unfold compute_embeddings_stage
    rw [if_pos (by rw [h]; rfl)]
  · intro e db1 now1 h
    by_cases hc : (db.get_chunks paper.id).isEmpty
    · rw [compute_embeddings_stage, if_pos hc] at h
      simp only [Prod.mk.injEq, Option.some.injEq] at h
      obtain ⟨h1, h2, h3⟩ := h
      refine ⟨?_, h2.symm, h3.symm, h1.symm⟩
      cases hg : db.get_chunks paper.id with
      | nil => rfl
      | cons a t => rw [hg] at hc; simp at hc
    · rw [compute_embeddings_stage, if_neg hc] at h
      exact absurd (congrArg Prod.fst h) (by simp)
  · intro db1 now1 h
    by_cases hc : (db.get_chunks paper.id).isEmpty
    · rw [compute_embeddings_stage, if_pos hc] at h
      exact absurd (congrArg Prod.fst h) (by simp)
    · rw [compute_embeddings_stage, if_neg hc] at h
      have hdb1 : db1 = (embedInBatches env db (db.get_chunks paper.id)).update_paper paper.id
          [("embeddings_ready", Value.int 1)] := by
        have := congrArg (fun x => x.2.1) h
        exact this.symm
      subst hdb1
      refine ⟨update_paper_flag _ _, ?_⟩
      intro c hc2
      rw [embeddingOf_update_paper, embedInBatches_eq]
      exact writeChunkEmbeddings_mem env _ db hnodup2 c hc2

/-- A concrete paper used to instantiate the embedding-stage theorem. -/
def exPaper : Paper :=
  { id := "p1", title := Value.str "T", authors := Value.null, year := Value.null,
    doi := Value.null, source_url := Value.null, local_pdf_path := "/pdfs/p1.pdf",
    added_at := 0, indexed_at := Value.null, embeddings_ready := Value.int 0,
    status := Value.str "indexed", collection := Value.str "default",
    metadata := Value.null }

/-- A store holding `exPaper` with two extracted chunks. -/
def exDB5 : Database :=
  { papers := [exPaper]
    jobs := []
    chunks :=
      [ { id := "c1", paper_id := "p1", page := 1, bbox := "[]", text := "alpha",
          chunk_index := 0 }
      , { id := "c2", paper_id := "p1", page := 1, bbox := "[]", text := "beta",
          chunk_index := 1 } ]
    embeddings := [] }

/-- Witness: the embedding-stage theorem applied to the concrete store
`exDB5`. -/
theorem compute_embeddings_spec_witness :
    (exDB5.get_chunks exPaper.id = [] →
      compute_embeddings_stage exEnv exDB5 0 exPaper =
        (some ("No chunks found for paper " ++ exPaper.id ++ ". Run text extraction first."),
          exDB5, 0)) ∧
    (∀ e db1 now1, compute_embeddings_stage exEnv exDB5 0 exPaper = (some e, db1, now1) →
      exDB5.get_chunks exPaper.id = [] ∧ db1 = exDB5 ∧ now1 = 0 ∧
      e = "No chunks found for paper " ++ exPaper.id ++ ". Run text extraction first.") ∧
    (∀ db1 now1, compute_embeddings_stage exEnv exDB5 0 exPaper = (none, db1, now1) →
      (∀ q ∈ db1.papers, q.id = exPaper.id → q.embeddings_ready = Value.int 1) ∧
      (∀ c ∈ exDB5.get_chunks exPaper.id,
        embeddingOf db1 c.id = some (vector_to_bytes (exEnv.embed_text c.text)))) :=
  compute_embeddings_spec exEnv exDB5 0 exPaper (by decide)

/-! ### The drain loop (C4) -/

theorem run_batch_loop_zero (env : Env) (db : Database) (now processed failed : Nat)
    (errors : List (String × String)) :
    run_batch_loop env 0 db now processed failed errors
      = ⟨processed, failed, errors, db, now⟩ := rfl

theorem run_batch_loop_succ (env : Env) (fuel : Nat) (db : Database)
    (now processed failed : Nat) (errors : List (String × String)) :
    run_batch_loop env (fuel + 1) db now processed failed errors
      = match db.get_pending_jobs with
        | [] => ⟨processed, failed, errors, db, now⟩
        | job :: _ =>
          match process_job env db now job with
          | (none, db1, now1) =>
              run_batch_loop env fuel db1 now1 (processed + 1) failed errors
          | (some e, db1, now1) =>
              run_batch_loop env fuel
                (db1.update_job job.id
                  [("status", Value.str "failed"), ("error", Value.str e),
                   ("finished_at", Value.time now1)])
                (now1 + 1) processed (failed + 1) (errors ++ [(job.id, e)]) := rfl

theorem mem_of_mem_get_pending (db : Database) {j : Job} (h : j ∈ db.get_pending_jobs) :
    j ∈ db.jobs ∧ isPendingJob j = true := by
  have h2 : j ∈ db.jobs.filter isPendingJob := List.mem_mergeSort.1 h
  exact ⟨(List.mem_filter.1 h2).1, (List.mem_filter.1 h2).2⟩

theorem filter_pending_nil_of_get_pending_nil (db : Database)
    (h : db.get_pending_jobs = []) : db.jobs.filter isPendingJob = [] := by
  have hperm : (db.jobs.filter isPendingJob).Perm db.get_pending_jobs :=
    (List.mergeSort_perm _ _).symm
  rw [h] at hperm
  exact hperm.eq_nil

theorem map_id_of_update (l : List Job) (i : String) (u : Job → Job)
    (hu : ∀ k, (u k).id = k.id) :
    (l.map (fun k => if k.id = i then u k else k)).map Job.id = l.map Job.id := by
  rw [List.map_map]
  refine List.map_congr_left (fun k _ => ?_)
  show Job.id (if k.id = i then u k else k) = k.id
  by_cases h : k.id = i
  · rw [if_pos h]
    exact hu k
  · rw [if_neg h]

theorem mem_map_update_ne (l : List Job) (i : String) (u : Job → Job) {k : Job}
    (hk : k ∈ l) (hki : ¬(k.id = i)) :
    k ∈ l.map (fun x => if x.id = i then u x else x) := by
  have h : (if k.id = i then u k else k) ∈ l.map (fun x => if x.id = i then u x else x) :=
    List.mem_map_of_mem _ hk
  rwa [if_neg hki] at h

theorem mem_map_update_self (l : List Job) (i : String) (u : Job → Job) {k : Job}
    (hk : k ∈ l) (hki : k.id = i) :
    u k ∈ l.map (fun x => if x.id = i then u x else x) := by
  have h : (if k.id = i then u k else k) ∈ l.map (fun x => if x.id = i then u x else x) :=
    List.mem_map_of_mem _ hk
  rwa [if_pos hki] at h

/-- Processing the unique pending row with a given id removes exactly one row
from the pending set. -/
theorem filter_length_after_update (l : List Job) (i : String) (u : Job → Job)
    (hu : ∀ k, isPendingJob (u k) = false)
    (hnodup : (l.map Job.id).Nodup) (j : Job) (hj : j ∈ l) (hjid : j.id = i)
    (hjp : isPendingJob j = true) :
    ((l.map (fun k => if k.id = i then u k else k)).filter isPendingJob).length + 1
      = (l.filter isPendingJob).length := by
  induction l with
  | nil => cases hj
  | cons a t ih =>
    rw [List.map_cons, List.filter_cons, List.filter_cons]
    by_cases ha : a.id = i
    · have hja : j = a := by
        rcases List.mem_cons.1 hj with rfl | hjt
        · rfl
        · exfalso
          have h1 : a.id ∈ t.map Job.id := by
            rw [ha, ← hjid]
            exact List.mem_map_of_mem Job.id hjt
          exact (List.nodup_cons.1 hnodup).1 h1
      subst hja
      have hmap : t.map (fun k => if k.id = i then u k else k) = t := by
        have hcongr : ∀ k ∈ t, (if k.id = i then u k else k) = id k := by
          intro k hk
          have hki : ¬(k.id = i) := by
            intro hki
            have h2 : j.id ∈ t.map Job.id := by
              rw [hjid, ← hki]
              exact List.mem_map_of_mem Job.id hk
            exact (List.nodup_cons.1 hnodup).1 h2
          rw [if_neg hki]
          rfl
        rw [List.map_congr_left hcongr, List.map_id]
      rw [if_pos ha, hu j, hjp, if_neg (by simp), if_pos rfl, hmap, List.length_cons]
    · rw [if_neg ha]
      have hjt : j ∈ t := by
        rcases List.mem_cons.1 hj with rfl | h
        · exact absurd hjid ha
        · exact h
      have ihx := ih (List.nodup_cons.1 hnodup).2 hjt
      by_cases hap : isPendingJob a = true
      · rw [hap, if_pos rfl, if_pos rfl, List.length_cons, List.length_cons]
        omega
      · have hap2 : isPendingJob a = false := by
          cases h2 : isPendingJob a
          · rfl
          · exact absurd h2 hap
        rw [hap2, if_neg (by simp), if_neg (by simp)]
        exact ihx

/-- The drain-loop invariant: given unique job ids and enough fuel, the loop
empties the pending queue, never touches non-pending rows, drives every
initially-pending row to `completed` or to `failed` with its error recorded
in the returned error list, extends the error accumulator by exactly the new
failures (each pointing at a failed row), and processes each pending job
exactly once. -/
theorem run_batch_loop_invariant (env : Env) (fuel : Nat) :
    ∀ (db : Database) (now processed failed : Nat) (errors : List (String × String)),
      (db.jobs.map Job.id).Nodup →
      (db.jobs.filter isPendingJob).length ≤ fuel →
      ∀ out : LoopOut, run_batch_loop env fuel db now processed failed errors = out →
        out.db.jobs.map Job.id = db.jobs.map Job.id ∧
        out.db.jobs.filter isPendingJob = [] ∧
        (∀ k ∈ db.jobs, isPendingJob k = false → k ∈ out.db.jobs) ∧
        (∀ k ∈ db.jobs, isPendingJob k = true →
          ∃ k' ∈ out.db.jobs, k'.id = k.id ∧
            ((k'.status = Value.str "completed" ∧ ∃ t, k'.finished_at = Value.time t) ∨
             (k'.status = Value.str "failed" ∧
              (∃ e, k'.error = Value.str e ∧ (k'.id, e) ∈ out.errors) ∧
              ∃ t, k'.finished_at = Value.time t))) ∧
        (∃ newErrs, out.errors = errors ++ newErrs ∧
          out.failed = failed + newErrs.length ∧
          ∀ ie ∈ newErrs, ∃ k' ∈ out.db.jobs,
            k'.id = ie.1 ∧ k'.status = Value.str "failed" ∧ k'.error = Value.str ie.2) ∧
        out.processed + out.failed
          = processed + failed + (db.jobs.filter isPendingJob).length := by
  induction fuel with
  | zero =>
    intro db now processed failed errors hnodup hfuel out hout
    have hpc : (db.jobs.filter isPendingJob).length = 0 := Nat.le_zero.1 hfuel
    have hpe : db.jobs.filter isPendingJob = [] := List.length_eq_zero.1 hpc
    rw [run_batch_loop_zero] at hout
    subst hout
    refine ⟨rfl, hpe, fun k hk _ => hk, ?_, ⟨[], by simp, by simp, by simp⟩, by simp [hpc]⟩
    intro k hk hkp
    exfalso
    have hmem : k ∈ db.jobs.filter isPendingJob := List.mem_filter.2 ⟨hk, hkp⟩
    rw [hpe] at hmem
    cases hmem
  | succ fuel ih =>
    intro db now processed failed errors hnodup hfuel out hout
    cases hpend : db.get_pending_jobs with
    | nil =>
      have hout2 : (⟨processed, failed, errors, db, now⟩ : LoopOut) = out := by
        rw [← hout, run_batch_loop_succ, hpend]
      subst hout2
      have hpe : db.jobs.filter isPendingJob = [] :=
        filter_pending_nil_of_get_pending_nil db hpend
      refine ⟨rfl, hpe, fun k hk _ => hk, ?_, ⟨[], by simp, by simp, by simp⟩,
        by simp [hpe]⟩
      intro k hk hkp
      exfalso
      have hmem : k ∈ db.jobs.filter isPendingJob := List.mem_filter.2 ⟨hk, hkp⟩
      rw [hpe] at hmem
      cases hmem
    | cons job rest =>
      obtain ⟨hjmem, hjpend⟩ :=
        mem_of_mem_get_pending db (hpend ▸ List.mem_cons_self job rest)
      have hpcpos : 1 ≤ (db.jobs.filter isPendingJob).length :=
        List.length_pos.2 (List.ne_nil_of_mem (List.mem_filter.2 ⟨hjmem, hjpend⟩))
      have hout2 : (match process_job env db now job with
          | (none, db1, now1) =>
              run_batch_loop env fuel db1 now1 (processed + 1) failed errors
          | (some e, db1, now1) =>
              run_batch_loop env fuel
                (db1.update_job job.id
                  [("status", Value.str "failed"), ("error", Value.str e),
                   ("finished_at", Value.time now1)])
                (now1 + 1) processed (failed + 1) (errors ++ [(job.id, e)])) = out := by
        rw [← hout, run_batch_loop_succ, hpend]
      rcases process_job_cases env db now job with
        ⟨db2, now2, t, hpc, hjobs⟩ | ⟨e, db2, now2, hpc, hjobs⟩
      · -- the job's handler succeeded
        rw [hpc] at hout2
        have hids2 : db2.jobs.map Job.id = db.jobs.map Job.id := by
          rw [hjobs]
          exact map_id_of_update db.jobs job.id _ (fun k => rfl)
        have hnodup2 : (db2.jobs.map Job.id).Nodup := by
          rw [hids2]
          exact hnodup
        have hdec : (db2.jobs.filter isPendingJob).length + 1
            = (db.jobs.filter isPendingJob).length := by
          rw [hjobs]
          exact filter_length_after_update db.jobs job.id _ (fun k => rfl)
            hnodup job hjmem rfl hjpend
        have hfuel2 : (db2.jobs.filter isPendingJob).length ≤ fuel := by omega
        obtain ⟨hI1, hI2, hI3, hI4, ⟨newErrs, hE1, hE2, hE3⟩, hI6⟩ :=
          ih db2 now2 (processed + 1) failed errors hnodup2 hfuel2 out hout2
        refine ⟨hI1.trans hids2, hI2, ?_, ?_, ⟨newErrs, hE1, hE2, hE3⟩, by omega⟩
        · intro k hk hkp
          have hne : ¬(k.id = job.id) := by
            intro heq
            have hkj : k = job := List.inj_on_of_nodup_map hnodup hk hjmem heq
            rw [hkj, hjpend] at hkp
            cases hkp
          have hk2 : k ∈ db2.jobs := by
            rw [hjobs]
            exact mem_map_update_ne db.jobs job.id _ hk hne
          exact hI3 k hk2 hkp
        · intro k hk hkp
          by_cases hki : k.id = job.id
          · have hkj : k = job := List.inj_on_of_nodup_map hnodup hk hjmem hki
            have hrow : ({ job with
                status := Value.str "completed", started_at := Value.time now,
                finished_at := Value.time t } : Job) ∈ db2.jobs := by
              rw [hjobs]
              exact mem_map_update_self db.jobs job.id _ hjmem rfl
            have hrow2 := hI3 _ hrow rfl
            refine ⟨_, hrow2, ?_, Or.inl ⟨rfl, t, rfl⟩⟩
            rw [hkj]
          · have hk2 : k ∈ db2.jobs := by
              rw [hjobs]
              exact mem_map_update_ne db.jobs job.id _ hk hki
            exact hI4 k hk2 hkp
      · -- the job's handler raised `e`
        rw [hpc] at hout2
        have hjobs3 : (db2.update_job job.id
            [("status", Value.str "failed"), ("error", Value.str e),
             ("finished_at", Value.time now2)]).jobs
            = db.jobs.map (fun k => if k.id = job.id then
                { k with
                    status := Value.str "failed", started_at := Value.time now,
                    error := Value.str e, finished_at := Value.time now2 } else k) := by
          show db2.jobs.map _ = _
          rw [hjobs]
          exact map_if_comp db.jobs job.id _ _ (fun k => rfl)
        have hids3 : (db2.update_job job.id
            [("status", Value.str "failed"), ("error", Value.str e),
             ("finished_at", Value.time now2)]).jobs.map Job.id = db.jobs.map Job.id := by
          rw [hjobs3]
          exact map_id_of_update db.jobs job.id _ (fun k => rfl)
        have hnodup3 : ((db2.update_job job.id
            [("status", Value.str "failed"), ("error", Value.str e),
             ("finished_at", Value.time now2)]).jobs.map Job.id).Nodup := by
          rw [hids3]
          exact hnodup
        have hdec : ((db2.update_job job.id
            [("status", Value.str "failed"), ("error", Value.str e),
             ("finished_at", Value.time now2)]).jobs.filter isPendingJob).length + 1
            = (db.jobs.filter isPendingJob).length := by
          rw [hjobs3]
          exact filter_length_after_update db.jobs job.id _ (fun k => rfl)
            hnodup job hjmem rfl hjpend
        have hfuel3 : ((db2.update_job job.id
            [("status", Value.str "failed"), ("error", Value.str e),
             ("finished_at", Value.time now2)]).jobs.filter isPendingJob).length ≤ fuel := by
          omega
        obtain ⟨hI1, hI2, hI3, hI4, ⟨newErrs, hE1, hE2, hE3⟩, hI6⟩ :=
          ih _ (now2 + 1) processed (failed + 1) (errors ++ [(job.id, e)])
            hnodup3 hfuel3 out hout2
        have hrowmem : ({ job with
            status := Value.str "failed", started_at := Value.time now,
            error := Value.str e, finished_at := Value.time now2 } : Job)
            ∈ (db2.update_job job.id
              [("status", Value.str "failed"), ("error", Value.str e),
               ("finished_at", Value.time now2)]).jobs := by
          rw [hjobs3]
          exact mem_map_update_self db.jobs job.id _ hjmem rfl
        have hrowout := hI3 _ hrowmem rfl
        refine ⟨hI1.trans hids3, hI2, ?_, ?_,
          ⟨(job.id, e) :: newErrs, ?_, ?_, ?_⟩, by omega⟩
        · intro k hk hkp
          have hne : ¬(k.id = job.id) := by
            intro heq
            have hkj : k = job := List.inj_on_of_nodup_map hnodup hk hjmem heq
            rw [hkj, hjpend] at hkp
            cases hkp
          have hk3 : k ∈ (db2.update_job job.id
              [("status", Value.str "failed"), ("error", Value.str e),
               ("finished_at", Value.time now2)]).jobs := by
            rw [hjobs3]
            exact mem_map_update_ne db.jobs job.id _ hk hne
          exact hI3 k hk3 hkp
        · intro k hk hkp
          by_cases hki : k.id = job.id
          · have hkj : k = job := List.inj_on_of_nodup_map hnodup hk hjmem hki
            refine ⟨_, hrowout, ?_, Or.inr ⟨rfl, ⟨e, rfl, ?_⟩, now2, rfl⟩⟩
            · rw [hkj]
            · rw [hE1]
              simp
          · have hk3 : k ∈ (db2.update_job job.id
                [("status", Value.str "failed"), ("error", Value.str e),
                 ("finished_at", Value.time now2)]).jobs := by
              rw [hjobs3]
              exact mem_map_update_ne db.jobs job.id _ hk hki
            exact hI4 k hk3 hkp
        · rw [hE1]
          simp
        · rw [hE2, List.length_cons]
          omega
        · intro ie hie
          rcases List.mem_cons.1 hie with rfl | hie2
          · exact ⟨_, hrowout, rfl, rfl, rfl⟩
          · exact hE3 ie hie2

/-- **C4.** A non-busy `run_batch` drains the queue: it returns a completed
summary; afterwards no job is pending; every initially-pending job was
processed and ended `completed`, or `failed` with a non-null error text and
`finished_at` set and its `(jobId, error)` pair in the returned error list;
every returned error pair points at a failed row; the failed count equals the
number of reported errors; and processed + failed equals the number of
initially-pending jobs — so one job's failure never aborts the rest of the
batch. -/
theorem run_batch_partial_failure (env : Env) (st : BPState)
    (hrun : st.running = false)
    (hnodup : (st.db.jobs.map Job.id).Nodup) :
    ∃ p f errs db1 now1,
      run_batch env st = (BatchResult.completed p f errs,
        { running := false, db := db1, now := now1 }) ∧
      db1.jobs.filter isPendingJob = [] ∧
      (∀ k ∈ st.db.jobs, isPendingJob k = true →
        ∃ k' ∈ db1.jobs, k'.id = k.id ∧
          ((k'.status = Value.str "completed" ∧ ∃ t, k'.finished_at = Value.time t) ∨
           (k'.status = Value.str "failed" ∧
            (∃ e, k'.error = Value.str e ∧ (k'.id, e) ∈ errs) ∧
            ∃ t, k'.finished_at = Value.time t))) ∧
      (∀ ie ∈ errs, ∃ k' ∈ db1.jobs,
        k'.id = ie.1 ∧ k'.status = Value.str "failed" ∧ k'.error = Value.str ie.2) ∧
      f = errs.length ∧
      p + f = (st.db.jobs.filter isPendingJob).length := by
  have hfuel : (st.db.jobs.filter isPendingJob).length ≤ st.db.jobs.length :=
    List.length_filter_le _ _
  obtain ⟨hI1, hI2, hI3, hI4, ⟨newErrs, hE1, hE2, hE3⟩, hI6⟩ :=
    run_batch_loop_invariant env st.db.jobs.length st.db st.now 0 0 [] hnodup hfuel
      (run_batch_loop env st.db.jobs.length st.db st.now 0 0 []) rfl
  refine ⟨(run_batch_loop env st.db.jobs.length st.db st.now 0 0 []).processed,
    (run_batch_loop env st.db.jobs.length st.db st.now 0 0 []).failed,
    (run_batch_loop env st.db.jobs.length st.db st.now 0 0 []).errors,
    (run_batch_loop env st.db.jobs.length st.db st.now 0 0 []).db,
    (run_batch_loop env st.db.jobs.length st.db st.now 0 0 []).now,
    ?_, hI2, hI4, ?_, ?_, ?_⟩
  · unfold run_batch
    rw [hrun]
    rfl
  · intro ie hie
    rw [hE1] at hie
    exact hE3 ie (by simpa using hie)
  · rw [hE2, hE1]
    simp
  · omega

/-- Witness: the batch theorem applied to the concrete queue `exDB` (whose
ids are unique) in a non-busy state. -/
theorem run_batch_partial_failure_witness :
    ∃ p f errs db1 now1,
      run_batch exEnv { running := false, db := exDB, now := 0 }
        = (BatchResult.completed p f errs,
          { running := false, db := db1, now := now1 }) ∧
      db1.jobs.filter isPendingJob = [] ∧
      (∀ k ∈ exDB.jobs, isPendingJob k = true →
        ∃ k' ∈ db1.jobs, k'.id = k.id ∧
          ((k'.status = Value.str "completed" ∧ ∃ t, k'.finished_at = Value.time t) ∨
           (k'.status = Value.str "failed" ∧
            (∃ e, k'.error = Value.str e ∧ (k'.id, e) ∈ errs) ∧
            ∃ t, k'.finished_at = Value.time t))) ∧
      (∀ ie ∈ errs, ∃ k' ∈ db1.jobs,
        k'.id = ie.1 ∧ k'.status = Value.str "failed" ∧ k'.error = Value.str ie.2) ∧
      f = errs.length ∧
      p + f = (exDB.jobs.filter isPendingJob).length :=
  run_batch_partial_failure exEnv { running := false, db := exDB, now := 0 } rfl (by decide)

end Scriptor
